import Mathlib

/-!
Verification of the hierarchical content-search / index engine of
`server/services/googleDriveService.js` (class `GoogleDriveService`).

The remote Google Drive store is modelled as a finite list of nodes
together with per-call failure flags; every service method is translated
into a pure Lean function over that model.  Stateful session caches
(`this.folderCache`, `this.pathCache`) become explicitly threaded
association lists with JavaScript `Map` semantics (`mset` replaces the
value in place, keeping insertion order, exactly like `Map.prototype.set`).
Unbounded recursions of the source (parent-chain walks, the BFS frontier
loop) take an explicit fuel argument; every definition is structurally
recursive and executable, so concrete runs evaluate by `decide` / `rfl`.
-/

namespace DriveSearch

/-- Model of JavaScript `String.prototype.includes` / the Drive
`name contains 'q'` clause: `q` occurs as a contiguous substring. -/
def seqHasSub [BEq α] : List α → List α → Bool
  | needle, [] => needle.isEmpty
  | needle, h :: t => needle.isPrefixOf (h :: t) || seqHasSub needle t

/-- Predicate `jsContains s sub` — `s` contains `sub` as a substring. -/
def jsContains (s sub : String) : Bool :=
  seqHasSub sub.data s.data

/-- Model of JavaScript `String.prototype.startsWith`. -/
def jsStartsWith (s pre : String) : Bool :=
  pre.data.isPrefixOf s.data

/-- Model of JavaScript `String.prototype.endsWith`. -/
def jsEndsWith (s post : String) : Bool :=
  post.data.isSuffixOf s.data

/-- A node of the remote tree store, with the metadata fields the
search engine reads (`id, name, mimeType, parents, trashed`).  The
pass-through display fields (`webViewLink`, `size`, …) are omitted:
no claim mentions them and the engine never branches on them. -/
structure Node where
  id : String
  name : String
  mimeType : String
  parents : List String
  trashed : Bool
deriving Repr, DecidableEq

def folderMime : String := "application/vnd.google-apps.folder"

/-- The remote store plus failure behaviour of the individual API calls.
`globalFails` — the wide `files.list` of `globalDriveSearch` rejects;
`listFoldersFails f` — the child-folder listing (`'f' in parents and
mimeType = folder`) rejects; `searchFails f` — the per-folder name query
of `searchInSingleFolder` / the name queries of `searchFilesRecursive`
reject; `getFails i` — `files.get` on `i` rejects.  `rootFolderId`
models `this.folderId`. -/
structure Drive where
  rootFolderId : String
  nodes : List Node
  globalFails : Bool
  listFoldersFails : String → Bool
  searchFails : String → Bool
  getFails : String → Bool

/-- Model of `files.get` — resolves a node by id, failing when the flag is set or
the id is absent (the API throws a 404). -/
def getNode (d : Drive) (id : String) : Except Unit Node :=
  if d.getFails id then .error ()
  else
    match d.nodes.find? (fun n => n.id == id) with
    | some n => .ok n
    | none => .error ()

/-- Model of `files.list` with `q = '<fid>' in parents and trashed=false and
mimeType = folder` — the child-folder listing used by
`buildFolderStructureBulk` and `searchFilesRecursive`. -/
def folderChildrenList (d : Drive) (fid : String) : Except Unit (List Node) :=
  if d.listFoldersFails fid then .error ()
  else
    .ok (d.nodes.filter (fun n =>
      n.parents.contains fid && !n.trashed && n.mimeType == folderMime))

/-- The pure match list of one folder: nodes (files and folders) whose
name contains the query and that have `fid` among their parents —
what `searchInSingleFolder`'s combined query returns on success. -/
def folderMatchList (d : Drive) (q fid : String) : List Node :=
  d.nodes.filter (fun n =>
    jsContains n.name q && n.parents.contains fid && !n.trashed)

/-- Model of `files.list` with `q = name contains '<q>' and '<fid>' in parents
and trashed=false` — the per-folder search query. -/
def searchListing (d : Drive) (q fid : String) : Except Unit (List Node) :=
  if d.searchFails fid then .error ()
  else .ok (folderMatchList d q fid)

/-- Model of `files.list` with `q = name contains '<q>' and trashed=false`
(no parent clause) — the wide query of `globalDriveSearch`. -/
def globalListing (d : Drive) (q : String) : Except Unit (List Node) :=
  if d.globalFails then .error ()
  else .ok (d.nodes.filter (fun n => jsContains n.name q && !n.trashed))

/-- An output record of the search strategies (`ResultShaper` shape):
the metadata fields plus the `isFolder` tag and the resolved `path`. -/
structure Item where
  id : String
  name : String
  mimeType : String
  parents : List String
  isFolder : Bool
  path : String
deriving Repr, DecidableEq

/-- Shapes raw metadata into an output record, tagging folders by
mime type, as every strategy does. -/
def shapeNode (n : Node) (path : String) : Item :=
  ⟨n.id, n.name, n.mimeType, n.parents, n.mimeType == folderMime, path⟩

/-- Association-list lookup (first binding wins). -/
def alookup [DecidableEq α] : List (α × β) → α → Option β
  | [], _ => none
  | (k, v) :: rest, key => if key = k then some v else alookup rest key

/-- JavaScript `Map.prototype.set`: replace the value in place when the
key is present (keeping its insertion position), append otherwise. -/
def mset [DecidableEq α] : List (α × β) → α → β → List (α × β)
  | [], k, v => [(k, v)]
  | (k', v') :: rest, k, v =>
    if k = k' then (k, v) :: rest else (k', v') :: mset rest k v

/-- Cache `this.folderCache`: memoised `(itemId, rootId) ↦ Bool` ancestry
answers. -/
def FolderCache : Type := List ((String × String) × Bool)

/-- Cache `this.pathCache`: memoised `folderId ↦ path`. -/
def PathCache : Type := List (String × String)

/-- The session-scoped mutable caches of the service object. -/
structure Session where
  folderCache : List ((String × String) × Bool)
  pathCache : List (String × String)

/-- Model of `isDescendantOf(itemId, rootFolderId)` with its cache, instrumented
with the number of `files.get` calls it performs (third component).
A fuel of `0` models the stack-overflow-caught-by-`catch` case of an
unbounded parent chain: like any caught error it caches and returns
`false`; the claims are stated for sufficient fuel. -/
def isDescendantOf (d : Drive) :
    Nat → String → String → List ((String × String) × Bool) →
    Bool × List ((String × String) × Bool) × Nat
  | fuel, itemId, rootId, c =>
    if itemId = rootId then (true, c, 0)
    else
      match alookup c (itemId, rootId) with
      | some b => (b, c, 0)
      | none =>
        match fuel with
        | 0 => (false, mset c (itemId, rootId) false, 0)
        | fuel' + 1 =>
          match getNode d itemId with
          | .error _ => (false, mset c (itemId, rootId) false, 1)
          | .ok node =>
            match node.parents with
            | [] => (false, mset c (itemId, rootId) false, 1)
            | p :: _ =>
              if p = rootId then (true, mset c (itemId, rootId) true, 1)
              else
                let t := isDescendantOf d fuel' p rootId c
                (t.1, mset t.2.1 (itemId, rootId) t.1, t.2.2 + 1)

/-- Model of `buildFilePath(folderId)`: upward parent walk producing the display
path; any error caught inside one recursive level yields `"/unknown"`
for that level.  `!folderId` (empty string) and the configured root
resolve to `"/"` before any remote call. -/
def buildFilePath (d : Drive) : Nat → String → String
  | fuel, fid =>
    if fid = "" ∨ fid = d.rootFolderId then "/"
    else
      match fuel with
      | 0 => "/unknown"
      | fuel' + 1 =>
        match getNode d fid with
        | .error _ => "/unknown"
        | .ok node =>
          let parentPath :=
            match node.parents.head? with
            | some p => buildFilePath d fuel' p
            | none => "/"
          if parentPath = "/" then "/" ++ node.name
          else parentPath ++ "/" ++ node.name

/-- Model of `getOptimizedPath(folderId)`: path resolution through
`this.pathCache` (check cache, else compute via `buildFilePath` and
memoise).  The argument is optional because call sites pass
`item.parents?.[0]`. -/
def getOptimizedPath (d : Drive) (fuel : Nat) (fid : Option String)
    (pc : List (String × String)) : String × List (String × String) :=
  match fid with
  | none => ("/", pc)
  | some f =>
    if f = "" ∨ f = d.rootFolderId then ("/", pc)
    else
      match alookup pc f with
      | some p => (p, pc)
      | none =>
        let p := buildFilePath d fuel f
        (p, mset pc f p)

/-- The filtering loop of `globalDriveSearch`: for each global hit,
keep it iff `isDescendantOf` answers true, attaching the path of its
primary parent via `getOptimizedPath`; both caches are threaded in
source order. -/
def globalFilterLoop (d : Drive) (fuel : Nat) (rootId : String) :
    List Node → Session → List Item × Session
  | [], s => ([], s)
  | n :: ns, s =>
    let t := isDescendantOf d fuel n.id rootId s.folderCache
    if t.1 then
      let pp := getOptimizedPath d fuel n.parents.head? s.pathCache
      let rest := globalFilterLoop d fuel rootId ns ⟨t.2.1, pp.2⟩
      (shapeNode n pp.1 :: rest.1, rest.2)
    else
      let rest := globalFilterLoop d fuel rootId ns ⟨t.2.1, s.pathCache⟩
      (rest.1, rest.2)

/-- Model of `globalDriveSearch(query, rootFolderId)`: one wide listing, then
ancestry filtering.  A listing failure is re-thrown to the caller. -/
def globalDriveSearch (d : Drive) (fuel : Nat) (q rootId : String)
    (s : Session) : Except Unit (List Item) × Session :=
  match globalListing d q with
  | .error _ => (.error (), s)
  | .ok hits =>
    let r := globalFilterLoop d fuel rootId hits s
    (.ok r.1, r.2)

/-- A BFS frontier entry of `buildFolderStructureBulk`:
`{ id: folder.id, depth, path }`. -/
structure QEntry where
  id : String
  depth : Nat
  path : String
deriving Repr, DecidableEq

/-- A `folderStructure` map value: `{ folders, path, depth }` (child
folder ids, the folder's path and its BFS discovery depth). -/
structure SEntry where
  childIds : List String
  path : String
  depth : Nat
deriving Repr, DecidableEq

/-- The state accumulated by `buildFolderStructureBulk`: the local
`folderStructure` map, the session `pathCache` it populates, and (as
instrumentation) the log of `(folderId, depth)` child-listing queries
it has issued. -/
structure BuildState where
  struct : List (String × SEntry)
  pathCache : List (String × String)
  queried : List (String × Nat)
deriving Repr

/-- Extension step `path === '/' ? '/'+name : path+'/'+name` — child path extension. -/
def extendPath (p name : String) : String :=
  if p = "/" then "/" ++ name else p ++ "/" ++ name

/-- The frontier entries a processed entry enqueues: one per listed
child folder, at depth `+1`, with the extended path; a failed listing
(caught per folder) enqueues nothing. -/
def childEntriesOf (d : Drive) (e : QEntry) : List QEntry :=
  match folderChildrenList d e.id with
  | .error _ => []
  | .ok fs => fs.map (fun f => ⟨f.id, e.depth + 1, extendPath e.path f.name⟩)

/-- Processing of one dequeued frontier entry: issue its child-folder
listing (logged), and on success store its `folderStructure` entry and
`pathCache` entry (unconditional `Map.set`, as in the source).  On
failure only the log grows — the error is caught and the folder
contributes zero children. -/
def processOne (d : Drive) (e : QEntry) (st : BuildState) : BuildState :=
  match folderChildrenList d e.id with
  | .error _ => { st with queried := st.queried ++ [(e.id, e.depth)] }
  | .ok fs =>
    { struct := mset st.struct e.id ⟨fs.map (fun f => f.id), e.path, e.depth⟩
      pathCache := mset st.pathCache e.id e.path
      queried := st.queried ++ [(e.id, e.depth)] }

/-- One concurrent batch (`Promise.all` over up to 15 entries),
sequentialised in batch order; returns the updated state and the new
frontier entries, in the order they are pushed. -/
def processBatch (d : Drive) : List QEntry → BuildState → BuildState × List QEntry
  | [], st => (st, [])
  | e :: es, st =>
    let st1 := processOne d e st
    let r := processBatch d es st1
    (r.1, childEntriesOf d e ++ r.2)

/-- The `while (queue.length > 0)` loop of `buildFolderStructureBulk`:
splice up to 15 entries; if the first spliced entry has
`depth >= maxDepth`, stop; else process the batch and append the newly
discovered entries to the queue. -/
def buildLoop (d : Drive) (maxDepth : Nat) :
    Nat → List QEntry → BuildState → BuildState
  | 0, _, st => st
  | _ + 1, [], st => st
  | fuel + 1, q@(e :: _), st =>
    if maxDepth ≤ e.depth then st
    else
      let r := processBatch d (q.take 15) st
      buildLoop d maxDepth fuel (q.drop 15 ++ r.2) r.1

/-- Model of `buildFolderStructureBulk(rootFolderId, maxDepth)` (the caller uses
the default `maxDepth = 6`): BFS from the root seeded with
`{id: root, depth: 0, path: '/'}`. -/
def buildFolderStructureBulk (d : Drive) (fuel : Nat) (rootId : String)
    (maxDepth : Nat) (pc : List (String × String)) : BuildState :=
  buildLoop d maxDepth fuel [⟨rootId, 0, "/"⟩] ⟨[], pc, []⟩

/-- Model of `searchInSingleFolder(query, folderId)`: one combined query; any
error is caught and the folder contributes the empty list.  The `path`
field is attached later by the caller, hence `""` here. -/
def searchInSingleFolder (d : Drive) (q fid : String) : List Item :=
  match searchListing d q fid with
  | .error _ => []
  | .ok ns => ns.map (fun n => shapeNode n "")

/-- The batched (`batchSize = 10`) per-folder query loop of
`optimizedRecursiveSearch`, sequentialised in batch order.  The fuel is
instantiated with the list length by the wrapper, which suffices since
every step consumes at least one element. -/
def searchBatchedAux (d : Drive) (q : String) : Nat → List String → List Item
  | 0, _ => []
  | _ + 1, [] => []
  | fuel + 1, l@(_ :: _) =>
    (l.take 10).flatMap (fun fid => searchInSingleFolder d q fid) ++
      searchBatchedAux d q fuel (l.drop 10)

def searchBatched (d : Drive) (q : String) (l : List String) : List Item :=
  searchBatchedAux d q l.length l

/-- Model of `optimizedRecursiveSearch(query, rootFolderId)`: build the folder
structure in bulk, query every known folder in batches, then attach to
each raw result the cached path of its primary parent
(`this.pathCache.get(item.parents?.[0]) || '/'`). -/
def optimizedRecursiveSearch (d : Drive) (fuel : Nat) (q rootId : String)
    (s : Session) : List Item × Session :=
  let bs := buildFolderStructureBulk d fuel rootId 6 s.pathCache
  let keys := bs.struct.map (fun p => p.1)
  let raw := searchBatched d q keys
  let withPaths := raw.map (fun it =>
    { it with path :=
        match it.parents.head? with
        | some p => (alookup bs.pathCache p).getD "/"
        | none => "/" })
  (withPaths, { s with pathCache := bs.pathCache })

/-- The body of `searchFiles` once the target root has been resolved:
try the global strategy; on a raised error, or on a successful result
with `length === 0`, run the optimized recursive strategy.  (The legacy
`searchFilesRecursive` is never invoked from here.) -/
def searchFilesAt (d : Drive) (fuel : Nat) (q target : String)
    (s : Session) : List Item × Session :=
  match globalDriveSearch d fuel q target s with
  | (.ok gres, s1) =>
    if gres.length > 0 then (gres, s1)
    else optimizedRecursiveSearch d fuel q target s1
  | (.error _, s1) => optimizedRecursiveSearch d fuel q target s1

/-- Model of `searchFiles(query, folderId)` — the `SearchCoordinator`:
`const targetFolderId = folderId || this.folderId` then the strategy
cascade. -/
def searchFiles (d : Drive) (fuel : Nat) (q : String)
    (folderId : Option String) (s : Session) : List Item × Session :=
  searchFilesAt d fuel q
    (match folderId with
     | none => d.rootFolderId
     | some f => if f = "" then d.rootFolderId else f) s

/-- Model of `searchFilesRecursive(query, folderId, depth)` — the naive bounded
DFS strategy (`maxDepth = 8`), instrumented with the log of
`(folderId, depth)` listing-query groups it issues.  The three parallel
listings of one folder are issued together; if any of them rejects the
whole folder's `try` block is aborted (results `[]`), children included.
Sub-folder recursion batches (`batchSize = 3`, `Promise.all` in order)
are sequentialised, which preserves the order of the concatenated
results. -/
def searchFilesRecursive (d : Drive) (q : String) :
    Nat → String → Nat → List Item × List (String × Nat)
  | fuel, fid, depth =>
    if depth > 8 then ([], [])
    else
      match fuel with
      | 0 => ([], [])
      | fuel' + 1 =>
        if d.searchFails fid || d.listFoldersFails fid then ([], [(fid, depth)])
        else
          let files := d.nodes.filter (fun n =>
            jsContains n.name q && n.parents.contains fid && !n.trashed &&
              !(n.mimeType == folderMime))
          let matchingFolders := d.nodes.filter (fun n =>
            jsContains n.name q && n.parents.contains fid && !n.trashed &&
              n.mimeType == folderMime)
          let allFolders := d.nodes.filter (fun n =>
            n.parents.contains fid && !n.trashed && n.mimeType == folderMime)
          let folderPath :=
            if fid ≠ d.rootFolderId then buildFilePath d fuel' fid else "/"
          let here :=
            files.map (fun n => shapeNode n folderPath) ++
              matchingFolders.map (fun n => shapeNode n folderPath)
          let subs := allFolders.map
            (fun f => searchFilesRecursive d q fuel' f.id (depth + 1))
          (here ++ (subs.map (fun r => r.1)).flatten,
            [(fid, depth)] ++ (subs.map (fun r => r.2)).flatten)

/-- Reachability from `r` downwards through successful child-folder
listings: `f` is `r` itself or a listed child folder of a reachable
folder.  This is the "subtree of the root" in the sense the BFS
discovers it. -/
def reachableFrom (d : Drive) : Nat → String → String → Bool
  | 0, r, f => f == r
  | fuel + 1, r, f =>
    f == r ||
      (match folderChildrenList d r with
       | .error _ => false
       | .ok cs => cs.any (fun c => reachableFrom d fuel c.id f))

/-- The tag of the byte stream `getFileContent` returns: a converted
export or a raw media download. -/
inductive StreamSrc where
  | exportPdf (fileId mime : String)
  | download (fileId : String)
deriving Repr, DecidableEq

/-- The record `getFileContent` resolves with:
`{ stream, mimeType, name }`. -/
structure ContentResult where
  stream : StreamSrc
  mimeType : String
  name : String
deriving Repr, DecidableEq

def gAppsPref : String := "application/vnd.google-apps"

/-- Model of `getFileContent(fileId)`: Google-Docs types (mime starting with
`application/vnd.google-apps`) are exported as PDF with a `.pdf` name;
anything else is downloaded as-is, defaulting the mime type to
`application/octet-stream` when the metadata has none (modelled as
`""`; `mimeType && mimeType.startsWith(p)` agrees with plain
`startsWith` there since no prefix of `""` is nonempty). -/
def getFileContent (d : Drive) (fileId : String) : Except Unit ContentResult :=
  match getNode d fileId with
  | .error _ => .error ()
  | .ok file =>
    if jsStartsWith file.mimeType gAppsPref then
      .ok ⟨.exportPdf fileId "application/pdf", "application/pdf",
        if jsEndsWith file.name ".pdf" then file.name else file.name ++ ".pdf"⟩
    else
      .ok ⟨.download fileId,
        if file.mimeType = "" then "application/octet-stream" else file.mimeType,
        file.name⟩

/-! ### Concrete stores used by witnesses and counterexamples -/

/-- The all-succeeding failure profile. -/
def noFail : String → Bool := fun _ => false

/-- Root `r` containing folder `F`; leaf `x.pdf` has primary parent
`out` (absent from the store) and secondary parent `F`.  The global
wide query finds `x.pdf` but the primary-parent ancestry walk dies at
`out`, so the global strategy keeps nothing, while the per-folder
listing of `F` does return the leaf. -/
def driveA : Drive :=
  { rootFolderId := "r"
    nodes :=
      [ ⟨"F", "F", folderMime, ["r"], false⟩,
        ⟨"x1", "x.pdf", "application/pdf", ["out", "F"], false⟩ ]
    globalFails := false
    listFoldersFails := noFail
    searchFails := noFail
    getFails := noFail }

/-- A diamond: folders `A` and `B` under root `r`, folder `X` a child of
both.  The BFS discovers `X` twice — first through `A`, then through
`B` — and both discoveries are processed. -/
def driveB : Drive :=
  { rootFolderId := "r"
    nodes :=
      [ ⟨"A", "A", folderMime, ["r"], false⟩,
        ⟨"B", "B", folderMime, ["r"], false⟩,
        ⟨"X", "X", folderMime, ["A", "B"], false⟩ ]
    globalFails := false
    listFoldersFails := noFail
    searchFails := noFail
    getFails := noFail }

/-- A chain `r / a / b`: with `maxDepth = 1` the folder `a` sits exactly
at the boundary depth. -/
def driveC : Drive :=
  { rootFolderId := "r"
    nodes :=
      [ ⟨"a", "a", folderMime, ["r"], false⟩,
        ⟨"b", "b", folderMime, ["a"], false⟩ ]
    globalFails := false
    listFoldersFails := noFail
    searchFails := noFail
    getFails := noFail }

/-- Node `b` (named `B`) whose parent `a` is absent from the store, so
the metadata fetch of the ancestor fails while `b`'s own succeeds. -/
def driveD : Drive :=
  { rootFolderId := "r"
    nodes := [ ⟨"b", "B", "application/pdf", ["a"], false⟩ ]
    globalFails := false
    listFoldersFails := noFail
    searchFails := noFail
    getFails := noFail }

/-- Root `r` with folders `g1` and `g2`, a matching leaf in each, and a
Google-Docs leaf; the per-folder search query of `g2` fails, nothing
else does. -/
def driveE : Drive :=
  { rootFolderId := "r"
    nodes :=
      [ ⟨"g1", "g1", folderMime, ["r"], false⟩,
        ⟨"g2", "g2", folderMime, ["r"], false⟩,
        ⟨"y1", "x-one.pdf", "application/pdf", ["g1"], false⟩,
        ⟨"y2", "x-two.pdf", "application/pdf", ["g2"], false⟩,
        ⟨"doc1", "notes", "application/vnd.google-apps.document", ["r"], false⟩ ]
    globalFails := false
    listFoldersFails := noFail
    searchFails := fun f => f == "g2"
    getFails := noFail }

/-- Store `driveA` with a failing global wide query. -/
def driveF : Drive := { driveA with globalFails := true }

/-! ### Association-list (JS `Map`) lemmas -/

theorem alookup_mset_self [DecidableEq α] (l : List (α × β)) (k : α) (v : β) :
    alookup (mset l k v) k = some v := by
  induction l with
  | nil => simp [mset, alookup]
  | cons h t ih =>
    obtain ⟨k', v'⟩ := h
    by_cases hk : k = k'
    · simp [mset, hk, alookup]
    · simp [mset, hk, alookup, ih]

theorem alookup_mset_ne [DecidableEq α] (l : List (α × β)) (k k' : α) (v : β)
    (h : k' ≠ k) : alookup (mset l k v) k' = alookup l k' := by
  induction l with
  | nil => simp [mset, alookup, h]
  | cons hd t ih =>
    obtain ⟨a, b⟩ := hd
    by_cases hk : k = a
    · subst hk; simp [mset, alookup, h]
    · simp only [mset, if_neg hk]
      by_cases hk' : k' = a
      · simp [alookup, hk']
      · simp [alookup, hk', ih]

theorem mem_mset [DecidableEq α] (l : List (α × β)) (k : α) (v : β) :
    ∀ p ∈ mset l k v, p ∈ l ∨ p = (k, v) := by
  induction l with
  | nil => simp [mset]
  | cons hd t ih =>
    obtain ⟨a, b⟩ := hd
    intro p hp
    by_cases hk : k = a
    · subst hk
      simp only [mset, if_pos, List.mem_cons] at hp
      rcases hp with h1 | h1
      · right; exact h1
      · left; exact List.mem_cons_of_mem _ h1
    · simp only [mset, if_neg hk, List.mem_cons] at hp
      rcases hp with h1 | h1
      · left; rw [h1]; exact List.mem_cons_self _ _
      · rcases ih p h1 with h2 | h2
        · left; exact List.mem_cons_of_mem _ h2
        · right; exact h2

/-! ### `isDescendantOf` cache lemmas -/

theorem isDesc_self (d : Drive) (fuel : Nat) (r : String)
    (c : List ((String × String) × Bool)) :
    isDescendantOf d fuel r r c = (true, c, 0) := by
  cases fuel <;> simp [isDescendantOf]

theorem isDesc_hit (d : Drive) (fuel : Nat) (n r : String) (b : Bool)
    (c : List ((String × String) × Bool)) (h : n ≠ r)
    (hc : alookup c (n, r) = some b) :
    isDescendantOf d fuel n r c = (b, c, 0) := by
  cases fuel <;> simp [isDescendantOf, h, hc]

/-- Every binding present before a call to `isDescendantOf` is still
present (with the same value) afterwards: the memo writes only the one
key that was just found absent. -/
theorem isDesc_pres (d : Drive) :
    ∀ fuel (n r : String) c key v, alookup c key = some v →
      alookup (isDescendantOf d fuel n r c).2.1 key = some v := by
  intro fuel
  induction fuel with
  | zero =>
    intro n r c key v hv
    by_cases h : n = r
    · simp [isDescendantOf, h, hv]
    · cases hc : alookup c (n, r) with
      | some b => simp [isDescendantOf, h, hc, hv]
      | none =>
        have hne : key ≠ (n, r) := by
          intro he; rw [he] at hv; rw [hv] at hc; exact Option.noConfusion hc
        simp only [isDescendantOf, if_neg h, hc]
        rw [alookup_mset_ne _ _ _ _ hne]
        exact hv
  | succ fuel ih =>
    intro n r c key v hv
    by_cases h : n = r
    · simp [isDescendantOf, h, hv]
    · cases hc : alookup c (n, r) with
      | some b => simp [isDescendantOf, h, hc, hv]
      | none =>
        have hne : key ≠ (n, r) := by
          intro he; rw [he] at hv; rw [hv] at hc; exact Option.noConfusion hc
        cases hg : getNode d n with
        | error e =>
          simp only [isDescendantOf, if_neg h, hc, hg]
          rw [alookup_mset_ne _ _ _ _ hne]; exact hv
        | ok node =>
          cases hp : node.parents with
          | nil =>
            simp only [isDescendantOf, if_neg h, hc, hg, hp]
            rw [alookup_mset_ne _ _ _ _ hne]; exact hv
          | cons p ps =>
            by_cases hpr : p = r
            · simp only [isDescendantOf, if_neg h, hc, hg, hp, if_pos hpr]
              rw [alookup_mset_ne _ _ _ _ hne]; exact hv
            · simp only [isDescendantOf, if_neg h, hc, hg, hp, if_neg hpr]
              rw [alookup_mset_ne _ _ _ _ hne]
              exact ih p r c key v hv

/-- After a call on a non-trivial pair, the cache holds the returned
boolean for that pair (the result is memoised before returning). -/
theorem isDesc_memo (d : Drive) (fuel : Nat) (n r : String)
    (c : List ((String × String) × Bool)) (h : n ≠ r) :
    alookup (isDescendantOf d fuel n r c).2.1 (n, r) =
      some (isDescendantOf d fuel n r c).1 := by
  cases fuel with
  | zero =>
    cases hc : alookup c (n, r) with
    | some b => simp [isDescendantOf, h, hc]
    | none => simp [isDescendantOf, h, hc, alookup_mset_self]
  | succ fuel =>
    cases hc : alookup c (n, r) with
    | some b => simp [isDescendantOf, h, hc]
    | none =>
      cases hg : getNode d n with
      | error e => simp [isDescendantOf, h, hc, hg, alookup_mset_self]
      | ok node =>
        cases hp : node.parents with
        | nil => simp [isDescendantOf, h, hc, hg, hp, alookup_mset_self]
        | cons p ps =>
          by_cases hpr : p = r
          · simp [isDescendantOf, h, hc, hg, hp, hpr, alookup_mset_self]
          · simp [isDescendantOf, h, hc, hg, hp, hpr, alookup_mset_self]

/-- Replay stability: once a call has produced `(b, c')`, any later call
on the same pair against any cache that preserves `c'`'s bindings
returns `b` without writing or fetching, at any fuel. -/
theorem isDesc_stable (d : Drive) (fuel fuel' : Nat) (n r : String)
    (c c₂ : List ((String × String) × Bool))
    (hpres : ∀ key v, alookup (isDescendantOf d fuel n r c).2.1 key = some v →
      alookup c₂ key = some v) :
    isDescendantOf d fuel' n r c₂ = ((isDescendantOf d fuel n r c).1, c₂, 0) := by
  by_cases h : n = r
  · subst h
    rw [isDesc_self, isDesc_self]
  · exact isDesc_hit d fuel' n r _ c₂ h (hpres _ _ (isDesc_memo d fuel n r c h))

/-! ### `getOptimizedPath` cache lemmas -/

/-- Lemma: `getOptimizedPath` never disturbs an existing path-cache binding:
it writes only on a miss, to the missing key. -/
theorem gop_pres (d : Drive) (fuel : Nat) (fid : Option String)
    (pc : List (String × String)) :
    ∀ key v, alookup pc key = some v →
      alookup (getOptimizedPath d fuel fid pc).2 key = some v := by
  intro key v hv
  cases fid with
  | none => exact hv
  | some f =>
    by_cases hroot : f = "" ∨ f = d.rootFolderId
    · simp [getOptimizedPath, hroot, hv]
    · cases hc : alookup pc f with
      | some p => simp [getOptimizedPath, hroot, hc, hv]
      | none =>
        have hne : key ≠ f := by
          intro he; rw [he] at hv; rw [hv] at hc; exact Option.noConfusion hc
        simp only [getOptimizedPath, if_neg hroot, hc]
        rw [alookup_mset_ne _ _ _ _ hne]
        exact hv

/-- Replay stability of `getOptimizedPath`: a later call for the same
folder id against any cache preserving the first call's bindings returns
the same path and leaves the cache untouched, at any fuel. -/
theorem gop_stable (d : Drive) (fuel fuel' : Nat) (fid : Option String)
    (pc pc₂ : List (String × String))
    (hpres : ∀ key v, alookup (getOptimizedPath d fuel fid pc).2 key = some v →
      alookup pc₂ key = some v) :
    getOptimizedPath d fuel' fid pc₂ = ((getOptimizedPath d fuel fid pc).1, pc₂) := by
  cases fid with
  | none => simp [getOptimizedPath]
  | some f =>
    by_cases hroot : f = "" ∨ f = d.rootFolderId
    · simp [getOptimizedPath, hroot]
    · cases hc : alookup pc f with
      | some p =>
        have h2 : alookup pc₂ f = some p := by
          apply hpres
          simp [getOptimizedPath, hroot, hc]
        simp [getOptimizedPath, hroot, hc, h2]
      | none =>
        have h2 : alookup pc₂ f = some (buildFilePath d fuel f) := by
          apply hpres
          simp only [getOptimizedPath, if_neg hroot, hc]
          exact alookup_mset_self _ _ _
        simp [getOptimizedPath, hroot, hc, h2]

/-! ### `globalDriveSearch` filter-loop lemmas -/

/-- The filter loop only grows the caches: pre-existing bindings of both
caches survive with their values. -/
theorem gfl_pres (d : Drive) (fuel : Nat) (r : String) :
    ∀ ns (s : Session),
      (∀ key v, alookup s.folderCache key = some v →
        alookup (globalFilterLoop d fuel r ns s).2.folderCache key = some v) ∧
      (∀ key v, alookup s.pathCache key = some v →
        alookup (globalFilterLoop d fuel r ns s).2.pathCache key = some v) := by
  intro ns
  induction ns with
  | nil => intro s; exact ⟨fun _ _ h => h, fun _ _ h => h⟩
  | cons n ns ih =>
    intro s
    by_cases ht : (isDescendantOf d fuel n.id r s.folderCache).1 = true
    · constructor
      · intro key v hv
        simp only [globalFilterLoop, ht, if_true]
        exact (ih _).1 key v (isDesc_pres d fuel n.id r s.folderCache key v hv)
      · intro key v hv
        simp only [globalFilterLoop, ht, if_true]
        exact (ih _).2 key v (gop_pres d fuel n.parents.head? s.pathCache key v hv)
    · rw [Bool.not_eq_true] at ht
      constructor
      · intro key v hv
        simp only [globalFilterLoop, ht, Bool.false_eq_true, if_false]
        exact (ih _).1 key v (isDesc_pres d fuel n.id r s.folderCache key v hv)
      · intro key v hv
        simp only [globalFilterLoop, ht, Bool.false_eq_true, if_false]
        exact (ih _).2 key v hv

/-- Replay stability of the filter loop: re-running it over the same
hits from any session preserving the first run's final cache bindings
keeps every verdict and every attached path, writes nothing, and
returns the same items. -/
theorem gfl_stable (d : Drive) (fuel fuel' : Nat) (r : String) :
    ∀ ns (s s₂ : Session),
      (∀ key v, alookup (globalFilterLoop d fuel r ns s).2.folderCache key = some v →
        alookup s₂.folderCache key = some v) →
      (∀ key v, alookup (globalFilterLoop d fuel r ns s).2.pathCache key = some v →
        alookup s₂.pathCache key = some v) →
      globalFilterLoop d fuel' r ns s₂ = ((globalFilterLoop d fuel r ns s).1, s₂) := by
  intro ns
  induction ns with
  | nil => intro s s₂ _ _; rfl
  | cons n ns ih =>
    intro s s₂ hfc hpc
    by_cases ht : (isDescendantOf d fuel n.id r s.folderCache).1 = true
    · have hrest := gfl_pres d fuel r ns
        ⟨(isDescendantOf d fuel n.id r s.folderCache).2.1,
         (getOptimizedPath d fuel n.parents.head? s.pathCache).2⟩
      have hfc1 : ∀ key v,
          alookup (isDescendantOf d fuel n.id r s.folderCache).2.1 key = some v →
          alookup s₂.folderCache key = some v := by
        intro key v hv
        apply hfc
        simp only [globalFilterLoop, ht, if_true]
        exact (hrest).1 key v hv
      have hpc1 : ∀ key v,
          alookup (getOptimizedPath d fuel n.parents.head? s.pathCache).2 key = some v →
          alookup s₂.pathCache key = some v := by
        intro key v hv
        apply hpc
        simp only [globalFilterLoop, ht, if_true]
        exact (hrest).2 key v hv
      have hdesc := isDesc_stable d fuel fuel' n.id r s.folderCache s₂.folderCache hfc1
      have hgop := gop_stable d fuel fuel' n.parents.head? s.pathCache s₂.pathCache hpc1
      have hfc2 : ∀ key v,
          alookup (globalFilterLoop d fuel r ns
            ⟨(isDescendantOf d fuel n.id r s.folderCache).2.1,
             (getOptimizedPath d fuel n.parents.head? s.pathCache).2⟩).2.folderCache key = some v →
          alookup s₂.folderCache key = some v := by
        intro key v hv
        apply hfc
        simp only [globalFilterLoop, ht, if_true]
        exact hv
      have hpc2 : ∀ key v,
          alookup (globalFilterLoop d fuel r ns
            ⟨(isDescendantOf d fuel n.id r s.folderCache).2.1,
             (getOptimizedPath d fuel n.parents.head? s.pathCache).2⟩).2.pathCache key = some v →
          alookup s₂.pathCache key = some v := by
        intro key v hv
        apply hpc
        simp only [globalFilterLoop, ht, if_true]
        exact hv
      have hih := ih ⟨(isDescendantOf d fuel n.id r s.folderCache).2.1,
        (getOptimizedPath d fuel n.parents.head? s.pathCache).2⟩ s₂ hfc2 hpc2
      simp only [globalFilterLoop, ht, if_true, hdesc, hgop, hih]
    · rw [Bool.not_eq_true] at ht
      have hfc1 : ∀ key v,
          alookup (isDescendantOf d fuel n.id r s.folderCache).2.1 key = some v →
          alookup s₂.folderCache key = some v := by
        intro key v hv
        apply hfc
        simp only [globalFilterLoop, ht, Bool.false_eq_true, if_false]
        exact (gfl_pres d fuel r ns
          ⟨(isDescendantOf d fuel n.id r s.folderCache).2.1, s.pathCache⟩).1 key v hv
      have hdesc := isDesc_stable d fuel fuel' n.id r s.folderCache s₂.folderCache hfc1
      have hfc2 : ∀ key v,
          alookup (globalFilterLoop d fuel r ns
            ⟨(isDescendantOf d fuel n.id r s.folderCache).2.1, s.pathCache⟩).2.folderCache key = some v →
          alookup s₂.folderCache key = some v := by
        intro key v hv
        apply hfc
        simp only [globalFilterLoop, ht, Bool.false_eq_true, if_false]
        exact hv
      have hpc2 : ∀ key v,
          alookup (globalFilterLoop d fuel r ns
            ⟨(isDescendantOf d fuel n.id r s.folderCache).2.1, s.pathCache⟩).2.pathCache key = some v →
          alookup s₂.pathCache key = some v := by
        intro key v hv
        apply hpc
        simp only [globalFilterLoop, ht, Bool.false_eq_true, if_false]
        exact hv
      have hih := ih ⟨(isDescendantOf d fuel n.id r s.folderCache).2.1, s.pathCache⟩
        s₂ hfc2 hpc2
      simp only [globalFilterLoop, ht, Bool.false_eq_true, if_false, hdesc, hih]

/-- A filter-loop run that kept nothing replays to an empty result from
any session preserving its final ancestry verdicts; the path cache is
irrelevant because no path was ever attached. -/
theorem gfl_empty_stable (d : Drive) (fuel fuel' : Nat) (r : String) :
    ∀ ns (s s₂ : Session),
      (globalFilterLoop d fuel r ns s).1 = [] →
      (∀ key v, alookup (globalFilterLoop d fuel r ns s).2.folderCache key = some v →
        alookup s₂.folderCache key = some v) →
      globalFilterLoop d fuel' r ns s₂ = ([], s₂) := by
  intro ns
  induction ns with
  | nil => intro s s₂ _ _; rfl
  | cons n ns ih =>
    intro s s₂ hout hfc
    by_cases ht : (isDescendantOf d fuel n.id r s.folderCache).1 = true
    · exfalso
      have : (globalFilterLoop d fuel r (n :: ns) s).1 =
          shapeNode n (getOptimizedPath d fuel n.parents.head? s.pathCache).1 ::
            (globalFilterLoop d fuel r ns
              ⟨(isDescendantOf d fuel n.id r s.folderCache).2.1,
               (getOptimizedPath d fuel n.parents.head? s.pathCache).2⟩).1 := by
        simp only [globalFilterLoop, ht, if_true]
      rw [this] at hout
      exact List.noConfusion hout
    · rw [Bool.not_eq_true] at ht
      have hout' : (globalFilterLoop d fuel r ns
          ⟨(isDescendantOf d fuel n.id r s.folderCache).2.1, s.pathCache⟩).1 = [] := by
        have : (globalFilterLoop d fuel r (n :: ns) s).1 =
            (globalFilterLoop d fuel r ns
              ⟨(isDescendantOf d fuel n.id r s.folderCache).2.1, s.pathCache⟩).1 := by
          simp only [globalFilterLoop, ht, Bool.false_eq_true, if_false]
        rw [this] at hout
        exact hout
      have hfc' : ∀ key v, alookup (globalFilterLoop d fuel r ns
          ⟨(isDescendantOf d fuel n.id r s.folderCache).2.1, s.pathCache⟩).2.folderCache
            key = some v → alookup s₂.folderCache key = some v := by
        intro key v hv
        apply hfc
        simp only [globalFilterLoop, ht, Bool.false_eq_true, if_false]
        exact hv
      have hfc1 : ∀ key v,
          alookup (isDescendantOf d fuel n.id r s.folderCache).2.1 key = some v →
          alookup s₂.folderCache key = some v := by
        intro key v hv
        exact hfc' key v ((gfl_pres d fuel r ns
          ⟨(isDescendantOf d fuel n.id r s.folderCache).2.1, s.pathCache⟩).1 key v hv)
      have hdesc := isDesc_stable d fuel fuel' n.id r s.folderCache s₂.folderCache hfc1
      have hih := ih ⟨(isDescendantOf d fuel n.id r s.folderCache).2.1, s.pathCache⟩
        s₂ hout' hfc'
      simp only [globalFilterLoop, ht, Bool.false_eq_true, if_false, hdesc, hih]

/-- Every item the filter loop keeps has its ancestry verdict recorded
as `true` in the final folder cache (unless the item is the root
itself, which needs no cache entry). -/
theorem gfl_results_true (d : Drive) (fuel : Nat) (r : String) :
    ∀ ns (s : Session), ∀ it ∈ (globalFilterLoop d fuel r ns s).1,
      alookup (globalFilterLoop d fuel r ns s).2.folderCache (it.id, r) = some true ∨
        it.id = r := by
  intro ns
  induction ns with
  | nil => intro s it hit; exact absurd hit (List.not_mem_nil _)
  | cons n ns ih =>
    intro s it hit
    by_cases ht : (isDescendantOf d fuel n.id r s.folderCache).1 = true
    · have hshape : (globalFilterLoop d fuel r (n :: ns) s).1 =
          shapeNode n (getOptimizedPath d fuel n.parents.head? s.pathCache).1 ::
            (globalFilterLoop d fuel r ns
              ⟨(isDescendantOf d fuel n.id r s.folderCache).2.1,
               (getOptimizedPath d fuel n.parents.head? s.pathCache).2⟩).1 := by
        simp only [globalFilterLoop, ht, if_true]
      have hstate : (globalFilterLoop d fuel r (n :: ns) s).2 =
          (globalFilterLoop d fuel r ns
            ⟨(isDescendantOf d fuel n.id r s.folderCache).2.1,
             (getOptimizedPath d fuel n.parents.head? s.pathCache).2⟩).2 := by
        simp only [globalFilterLoop, ht, if_true]
      rw [hshape] at hit
      rw [hstate]
      rcases List.mem_cons.mp hit with hhd | htl
      · by_cases hnr : n.id = r
        · right; rw [hhd]; exact hnr
        · left
          rw [hhd]
          show alookup _ (n.id, r) = some true
          have hmemo := isDesc_memo d fuel n.id r s.folderCache hnr
          rw [ht] at hmemo
          exact (gfl_pres d fuel r ns _).1 (n.id, r) true hmemo
      · exact ih _ it htl
    · rw [Bool.not_eq_true] at ht
      have hshape : (globalFilterLoop d fuel r (n :: ns) s).1 =
          (globalFilterLoop d fuel r ns
            ⟨(isDescendantOf d fuel n.id r s.folderCache).2.1, s.pathCache⟩).1 := by
        simp only [globalFilterLoop, ht, Bool.false_eq_true, if_false]
      have hstate : (globalFilterLoop d fuel r (n :: ns) s).2 =
          (globalFilterLoop d fuel r ns
            ⟨(isDescendantOf d fuel n.id r s.folderCache).2.1, s.pathCache⟩).2 := by
        simp only [globalFilterLoop, ht, Bool.false_eq_true, if_false]
      rw [hshape] at hit
      rw [hstate]
      exact ih _ it hit

/-! ### `buildFolderStructureBulk` lemmas -/

theorem mem_childEntriesOf_depth (d : Drive) (e : QEntry) :
    ∀ c ∈ childEntriesOf d e, c.depth = e.depth + 1 := by
  intro c hc
  cases h : folderChildrenList d e.id with
  | error u =>
    simp only [childEntriesOf, h] at hc
    exact absurd hc (List.not_mem_nil _)
  | ok fs =>
    simp only [childEntriesOf, h] at hc
    rcases List.mem_map.mp hc with ⟨f, _, hf⟩
    rw [← hf]

/-- The new frontier entries of a batch are exactly the concatenated
child entries of its members, in order; they do not depend on the
accumulated state. -/
theorem processBatch_new (d : Drive) :
    ∀ es (st : BuildState),
      (processBatch d es st).2 = es.flatMap (childEntriesOf d) := by
  intro es
  induction es with
  | nil => intro st; rfl
  | cons e es ih => intro st; simp [processBatch, ih]

theorem processOne_struct_le (d : Drive) (md : Nat) (e : QEntry) (st : BuildState)
    (hst : ∀ p ∈ st.struct, p.2.depth ≤ md) (he : e.depth ≤ md) :
    ∀ p ∈ (processOne d e st).struct, p.2.depth ≤ md := by
  intro p hp
  cases h : folderChildrenList d e.id with
  | error u =>
    simp only [processOne, h] at hp
    exact hst p hp
  | ok fs =>
    simp only [processOne, h] at hp
    rcases mem_mset _ _ _ p hp with h1 | h1
    · exact hst p h1
    · rw [h1]; exact he

theorem processOne_queried_le (d : Drive) (md : Nat) (e : QEntry) (st : BuildState)
    (hst : ∀ p ∈ st.queried, p.2 ≤ md) (he : e.depth ≤ md) :
    ∀ p ∈ (processOne d e st).queried, p.2 ≤ md := by
  intro p hp
  cases h : folderChildrenList d e.id with
  | error u =>
    simp only [processOne, h] at hp
    rcases List.mem_append.mp hp with h1 | h1
    · exact hst p h1
    · rcases List.mem_singleton.mp h1 with rfl; exact he
  | ok fs =>
    simp only [processOne, h] at hp
    rcases List.mem_append.mp hp with h1 | h1
    · exact hst p h1
    · rcases List.mem_singleton.mp h1 with rfl; exact he

theorem processBatch_le (d : Drive) (md : Nat) :
    ∀ es (st : BuildState),
      (∀ e ∈ es, e.depth ≤ md) →
      (∀ p ∈ st.struct, p.2.depth ≤ md) →
      (∀ p ∈ st.queried, p.2 ≤ md) →
      (∀ p ∈ (processBatch d es st).1.struct, p.2.depth ≤ md) ∧
      (∀ p ∈ (processBatch d es st).1.queried, p.2 ≤ md) := by
  intro es
  induction es with
  | nil => intro st _ h1 h2; exact ⟨h1, h2⟩
  | cons e es ih =>
    intro st hes h1 h2
    have he : e.depth ≤ md := hes e (List.mem_cons_self _ _)
    have h1' := processOne_struct_le d md e st h1 he
    have h2' := processOne_queried_le d md e st h2 he
    have hes' : ∀ x ∈ es, x.depth ≤ md :=
      fun x hx => hes x (List.mem_cons_of_mem _ hx)
    have := ih (processOne d e st) hes' h1' h2'
    simpa [processBatch] using this

/-- Preservation of the two-consecutive-levels shape of the frontier:
the spliced-off batch's children (each one level below its parent)
appended after the remaining queue keep the queue pairwise
nondecreasing with gaps of at most one level. -/
theorem buildQueue_pairwise (d : Drive) (q : List QEntry)
    (hq : q.Pairwise (fun a b : QEntry => a.depth ≤ b.depth ∧ b.depth ≤ a.depth + 1)) :
    (q.drop 15 ++ (q.take 15).flatMap (childEntriesOf d)).Pairwise
      (fun a b : QEntry => a.depth ≤ b.depth ∧ b.depth ≤ a.depth + 1) := by
  have hq' : ((q.take 15) ++ (q.drop 15)).Pairwise
      (fun a b : QEntry => a.depth ≤ b.depth ∧ b.depth ≤ a.depth + 1) := by
    rw [List.take_append_drop]; exact hq
  rw [List.pairwise_append] at hq'
  obtain ⟨htake, hdrop, hcross⟩ := hq'
  rw [List.pairwise_append]
  refine ⟨hdrop, ?_, ?_⟩
  · rw [List.flatMap_def, List.pairwise_flatten]
    constructor
    · intro l hl
      rcases List.mem_map.mp hl with ⟨e, _, rfl⟩
      apply List.pairwise_of_forall_mem_list
      intro a ha b hb
      have h1 := mem_childEntriesOf_depth d e a ha
      have h2 := mem_childEntriesOf_depth d e b hb
      omega
    · rw [List.pairwise_map]
      apply htake.imp
      intro e1 e2 h12
      intro a ha b hb
      have h1 := mem_childEntriesOf_depth d e1 a ha
      have h2 := mem_childEntriesOf_depth d e2 b hb
      omega
  · intro a ha b hb
    rcases List.mem_flatMap.mp hb with ⟨e2, he2, hbce⟩
    have hbd := mem_childEntriesOf_depth d e2 b hbce
    have hcr := hcross e2 he2 a ha
    omega

/-- Depth invariant of the BFS loop: starting from a two-level frontier
and a state whose structure entries and query log respect the bound,
every structure entry recorded and every child-listing query issued
stays at depth `≤ maxDepth`. -/
theorem buildLoop_le (d : Drive) (md : Nat) :
    ∀ fuel q (st : BuildState),
      q.Pairwise (fun a b : QEntry => a.depth ≤ b.depth ∧ b.depth ≤ a.depth + 1) →
      (∀ p ∈ st.struct, p.2.depth ≤ md) →
      (∀ p ∈ st.queried, p.2 ≤ md) →
      (∀ p ∈ (buildLoop d md fuel q st).struct, p.2.depth ≤ md) ∧
      (∀ p ∈ (buildLoop d md fuel q st).queried, p.2 ≤ md) := by
  intro fuel
  induction fuel with
  | zero => intro q st _ h1 h2; exact ⟨h1, h2⟩
  | succ fuel ih =>
    intro q st hq h1 h2
    cases q with
    | nil => exact ⟨h1, h2⟩
    | cons e t =>
      by_cases hd : md ≤ e.depth
      · simp only [buildLoop, if_pos hd]; exact ⟨h1, h2⟩
      · have hd' : e.depth < md := by omega
        have hbatch : ∀ b ∈ (e :: t).take 15, b.depth ≤ md := by
          intro b hb
          have hb' : b ∈ e :: t := List.mem_of_mem_take hb
          rcases List.mem_cons.mp hb' with rfl | hbt
          · omega
          · have := (List.pairwise_cons.mp hq).1 b hbt
            omega
        have hpb := processBatch_le d md ((e :: t).take 15) st hbatch h1 h2
        have hq' := buildQueue_pairwise d (e :: t) hq
        have hih := ih ((e :: t).drop 15 ++ ((e :: t).take 15).flatMap (childEntriesOf d))
          (processBatch d ((e :: t).take 15) st).1 hq' hpb.1 hpb.2
        simp only [buildLoop, if_neg hd]
        rw [processBatch_new d ((e :: t).take 15) st]
        exact hih

/-! ### Reachability lemmas -/

theorem reach_self (d : Drive) : ∀ fuel (x : String),
    reachableFrom d fuel x x = true := by
  intro fuel x
  cases fuel <;> simp [reachableFrom]

/-- A listed child folder of the root is reachable in one more step. -/
theorem reach_root_child (d : Drive) (fuel : Nat) (r : String) (cs : List Node)
    (c : Node) (hok : folderChildrenList d r = .ok cs) (hc : c ∈ cs) :
    reachableFrom d (fuel + 1) r c.id = true := by
  simp only [reachableFrom, hok, Bool.or_eq_true, List.any_eq_true]
  right
  exact ⟨c, hc, reach_self d fuel c.id⟩

/-- Reachability propagates through one successful child listing. -/
theorem reach_child (d : Drive) :
    ∀ fuel (r f : String) (cs : List Node) (c : Node),
      reachableFrom d fuel r f = true →
      folderChildrenList d f = .ok cs → c ∈ cs →
      reachableFrom d (fuel + 1) r c.id = true := by
  intro fuel
  induction fuel with
  | zero =>
    intro r f cs c hr hok hc
    have hfr : f = r := by simpa [reachableFrom] using hr
    subst hfr
    exact reach_root_child d 0 f cs c hok hc
  | succ fuel ih =>
    intro r f cs c hr hok hc
    by_cases hfr : f = r
    · subst hfr
      exact reach_root_child d (fuel + 1) f cs c hok hc
    · have hr' : ∃ cs', folderChildrenList d r = .ok cs' ∧
          ∃ g ∈ cs', reachableFrom d fuel g.id f = true := by
        cases hcr : folderChildrenList d r with
        | error u =>
          rw [show reachableFrom d (fuel + 1) r f =
            (f == r || match folderChildrenList d r with
              | .error _ => false
              | .ok cs => cs.any (fun c => reachableFrom d fuel c.id f)) from rfl,
            hcr] at hr
          simp [hfr] at hr
        | ok cs' =>
          rw [show reachableFrom d (fuel + 1) r f =
            (f == r || match folderChildrenList d r with
              | .error _ => false
              | .ok cs => cs.any (fun c => reachableFrom d fuel c.id f)) from rfl,
            hcr] at hr
          simp only [Bool.or_eq_true, beq_iff_eq, List.any_eq_true] at hr
          rcases hr with h | h
          · exact absurd h hfr
          · exact ⟨cs', rfl, h⟩
      obtain ⟨cs', hcr, g, hg, hreach⟩ := hr'
      have hstep := ih g.id f cs c hreach hok hc
      have hgoal : reachableFrom d (fuel + 1 + 1) r c.id =
          (c.id == r || match folderChildrenList d r with
            | .error _ => false
            | .ok cs2 => cs2.any (fun x => reachableFrom d (fuel + 1) x.id c.id)) := rfl
      rw [hgoal, hcr]
      simp only [Bool.or_eq_true, List.any_eq_true]
      right
      exact ⟨g, hg, hstep⟩

theorem childEntriesOf_reach (d : Drive) (r : String) (e : QEntry)
    (he : ∃ k, reachableFrom d k r e.id = true) :
    ∀ c ∈ childEntriesOf d e, ∃ k, reachableFrom d k r c.id = true := by
  intro c hc
  cases h : folderChildrenList d e.id with
  | error u =>
    simp only [childEntriesOf, h] at hc
    exact absurd hc (List.not_mem_nil _)
  | ok fs =>
    simp only [childEntriesOf, h] at hc
    rcases List.mem_map.mp hc with ⟨f, hf, hceq⟩
    obtain ⟨k, hk⟩ := he
    refine ⟨k + 1, ?_⟩
    rw [← hceq]
    exact reach_child d k r e.id fs f hk h hf

theorem processOne_reach (d : Drive) (r : String) (e : QEntry) (st : BuildState)
    (hst : ∀ p ∈ st.struct, ∃ k, reachableFrom d k r p.1 = true)
    (he : ∃ k, reachableFrom d k r e.id = true) :
    ∀ p ∈ (processOne d e st).struct, ∃ k, reachableFrom d k r p.1 = true := by
  intro p hp
  cases h : folderChildrenList d e.id with
  | error u =>
    simp only [processOne, h] at hp
    exact hst p hp
  | ok fs =>
    simp only [processOne, h] at hp
    rcases mem_mset _ _ _ p hp with h1 | h1
    · exact hst p h1
    · rw [h1]; exact he

theorem processBatch_reach (d : Drive) (r : String) :
    ∀ es (st : BuildState),
      (∀ e ∈ es, ∃ k, reachableFrom d k r e.id = true) →
      (∀ p ∈ st.struct, ∃ k, reachableFrom d k r p.1 = true) →
      ∀ p ∈ (processBatch d es st).1.struct, ∃ k, reachableFrom d k r p.1 = true := by
  intro es
  induction es with
  | nil => intro st _ h1; exact h1
  | cons e es ih =>
    intro st hes h1
    have h1' := processOne_reach d r e st h1 (hes e (List.mem_cons_self _ _))
    have hes' : ∀ x ∈ es, ∃ k, reachableFrom d k r x.id = true :=
      fun x hx => hes x (List.mem_cons_of_mem _ hx)
    have := ih (processOne d e st) hes' h1'
    simpa [processBatch] using this

/-- Every folder recorded in the structure index is reachable from the
BFS root through successful child-folder listings. -/
theorem buildLoop_reach (d : Drive) (md : Nat) (r : String) :
    ∀ fuel q (st : BuildState),
      (∀ e ∈ q, ∃ k, reachableFrom d k r e.id = true) →
      (∀ p ∈ st.struct, ∃ k, reachableFrom d k r p.1 = true) →
      ∀ p ∈ (buildLoop d md fuel q st).struct, ∃ k, reachableFrom d k r p.1 = true := by
  intro fuel
  induction fuel with
  | zero => intro q st _ h1; exact h1
  | succ fuel ih =>
    intro q st hq h1
    cases q with
    | nil => exact h1
    | cons e t =>
      by_cases hd : md ≤ e.depth
      · simp only [buildLoop, if_pos hd]; exact h1
      · have hbatch : ∀ b ∈ (e :: t).take 15, ∃ k, reachableFrom d k r b.id = true :=
          fun b hb => hq b (List.mem_of_mem_take hb)
        have h1' := processBatch_reach d r ((e :: t).take 15) st hbatch h1
        have hq' : ∀ x ∈ (e :: t).drop 15 ++
            ((e :: t).take 15).flatMap (childEntriesOf d),
            ∃ k, reachableFrom d k r x.id = true := by
          intro x hx
          rcases List.mem_append.mp hx with h | h
          · exact hq x (List.mem_of_mem_drop h)
          · rcases List.mem_flatMap.mp h with ⟨e2, he2, hxce⟩
            exact childEntriesOf_reach d r e2
              (hq e2 (List.mem_of_mem_take he2)) x hxce
        have hih := ih ((e :: t).drop 15 ++ ((e :: t).take 15).flatMap (childEntriesOf d))
          (processBatch d ((e :: t).take 15) st).1 hq' h1'
        simp only [buildLoop, if_neg hd]
        rw [processBatch_new d ((e :: t).take 15) st]
        exact hih

/-! ### Purity of the structure index in the session state -/

theorem processOne_sim (d : Drive) (e : QEntry) (st₁ st₂ : BuildState)
    (hs : st₁.struct = st₂.struct) (hq : st₁.queried = st₂.queried) :
    (processOne d e st₁).struct = (processOne d e st₂).struct ∧
    (processOne d e st₁).queried = (processOne d e st₂).queried := by
  cases h : folderChildrenList d e.id <;> simp [processOne, h, hs, hq]

theorem processBatch_sim (d : Drive) :
    ∀ es (st₁ st₂ : BuildState),
      st₁.struct = st₂.struct → st₁.queried = st₂.queried →
      (processBatch d es st₁).1.struct = (processBatch d es st₂).1.struct ∧
      (processBatch d es st₁).1.queried = (processBatch d es st₂).1.queried := by
  intro es
  induction es with
  | nil => intro st₁ st₂ hs hq; exact ⟨hs, hq⟩
  | cons e es ih =>
    intro st₁ st₂ hs hq
    have h1 := processOne_sim d e st₁ st₂ hs hq
    have := ih (processOne d e st₁) (processOne d e st₂) h1.1 h1.2
    simpa [processBatch] using this

/-- The structure index (and hence its key set) computed by the BFS does
not depend on the path cache it was seeded with. -/
theorem buildLoop_sim (d : Drive) (md : Nat) :
    ∀ fuel q (st₁ st₂ : BuildState),
      st₁.struct = st₂.struct → st₁.queried = st₂.queried →
      (buildLoop d md fuel q st₁).struct = (buildLoop d md fuel q st₂).struct := by
  intro fuel
  induction fuel with
  | zero => intro q st₁ st₂ hs _; exact hs
  | succ fuel ih =>
    intro q st₁ st₂ hs hq
    cases q with
    | nil => exact hs
    | cons e t =>
      by_cases hd : md ≤ e.depth
      · simp only [buildLoop, if_pos hd]; exact hs
      · simp only [buildLoop, if_neg hd]
        rw [processBatch_new d ((e :: t).take 15) st₁,
          processBatch_new d ((e :: t).take 15) st₂]
        have h1 := processBatch_sim d ((e :: t).take 15) st₁ st₂ hs hq
        exact ih _ _ _ h1.1 h1.2

/-! ### The batched per-folder query loop -/

theorem searchBatchedAux_eq (d : Drive) (q : String) :
    ∀ fuel (l : List String), l.length ≤ fuel →
      searchBatchedAux d q fuel l = l.flatMap (fun fid => searchInSingleFolder d q fid) := by
  intro fuel
  induction fuel with
  | zero =>
    intro l hl
    cases l with
    | nil => rfl
    | cons a t => simp at hl
  | succ fuel ih =>
    intro l hl
    cases l with
    | nil => rfl
    | cons a t =>
      have hlen : ((a :: t).drop 10).length ≤ fuel := by
        rw [List.length_drop]
        simp only [List.length_cons] at hl ⊢
        omega
      simp only [searchBatchedAux, ih _ hlen]
      rw [← List.flatMap_append, List.take_append_drop]

/-- The batched loop visits every known folder once, in order: it equals
the plain concatenation of the per-folder results. -/
theorem searchBatched_eq (d : Drive) (q : String) (l : List String) :
    searchBatched d q l = l.flatMap (fun fid => searchInSingleFolder d q fid) :=
  searchBatchedAux_eq d q l.length l le_rfl

/-! ### Naive recursive strategy lemmas -/

/-- The naive strategy never issues a query group for a folder at depth
greater than its bound of 8: the guard returns before any listing. -/
theorem naive_queried_le (d : Drive) (q : String) :
    ∀ fuel (fid : String) (depth : Nat),
      ∀ p ∈ (searchFilesRecursive d q fuel fid depth).2, p.2 ≤ 8 := by
  intro fuel
  induction fuel with
  | zero =>
    intro fid depth p hp
    by_cases h : depth > 8 <;> simp [searchFilesRecursive, h] at hp
  | succ fuel ih =>
    intro fid depth p hp
    by_cases h : depth > 8
    · simp [searchFilesRecursive, h] at hp
    · by_cases hf : (d.searchFails fid || d.listFoldersFails fid) = true
      · simp only [searchFilesRecursive, if_neg h, hf, if_true] at hp
        rcases List.mem_singleton.mp hp with rfl
        omega
      · rw [Bool.not_eq_true] at hf
        simp only [searchFilesRecursive, if_neg h, hf, Bool.false_eq_true, if_false] at hp
        rcases List.mem_append.mp hp with h1 | h1
        · rcases List.mem_singleton.mp h1 with rfl
          omega
        · rcases List.mem_flatten.mp h1 with ⟨l, hl, hpl⟩
          rcases List.mem_map.mp hl with ⟨rsub, hrsub, rfl⟩
          rcases List.mem_map.mp hrsub with ⟨f, _, rfl⟩
          exact ih f.id (depth + 1) p hpl

/-! ### `optimizedRecursiveSearch` result lemmas -/

theorem mem_searchInSingleFolder (d : Drive) (q fid : String) (it : Item)
    (hit : it ∈ searchInSingleFolder d q fid) :
    ∃ n ∈ folderMatchList d q fid, it = shapeNode n "" := by
  by_cases hf : d.searchFails fid = true
  · simp [searchInSingleFolder, searchListing, hf] at hit
  · rw [Bool.not_eq_true] at hf
    simp only [searchInSingleFolder, searchListing, hf, Bool.false_eq_true,
      if_false] at hit
    rcases List.mem_map.mp hit with ⟨n, hn, hshape⟩
    exact ⟨n, hn, hshape.symm⟩

theorem folderMatchList_parents (d : Drive) (q fid : String) (n : Node)
    (h : n ∈ folderMatchList d q fid) : n.parents.contains fid = true := by
  have h' := (List.mem_filter.mp h).2
  rcases Bool.and_eq_true_iff.mp h' with ⟨h1, _⟩
  exact (Bool.and_eq_true_iff.mp h1).2

/-- Every result of the indexed strategy was found directly inside a
folder of the structure index, and every such folder is reachable from
the search root through successful child-folder listings. -/
theorem opt_results_reach (d : Drive) (fuel : Nat) (q r : String) (s : Session) :
    ∀ it ∈ (optimizedRecursiveSearch d fuel q r s).1,
      ∃ f, (∃ k, reachableFrom d k r f = true) ∧ it.parents.contains f = true := by
  intro it hit
  simp only [optimizedRecursiveSearch] at hit
  rcases List.mem_map.mp hit with ⟨raw, hraw, hupd⟩
  rw [searchBatched_eq] at hraw
  rcases List.mem_flatMap.mp hraw with ⟨fid, hfid, hraw2⟩
  rcases mem_searchInSingleFolder d q fid raw hraw2 with ⟨n, hn, hn2⟩
  rcases List.mem_map.mp hfid with ⟨p, hp, hp1⟩
  have hreach : ∃ k, reachableFrom d k r p.1 = true := by
    apply buildLoop_reach d 6 r fuel [⟨r, 0, "/"⟩] ⟨[], s.pathCache, []⟩ ?_ ?_ p
    · exact hp
    · intro e he
      rcases List.mem_singleton.mp he with rfl
      exact ⟨0, reach_self d 0 r⟩
    · intro p2 hp2
      exact absurd hp2 (List.not_mem_nil _)
  refine ⟨p.1, hreach, ?_⟩
  have hpar : it.parents = n.parents := by
    rw [← hupd, hn2]; rfl
  rw [hpar, hp1]
  exact folderMatchList_parents d q fid n hn

/-- The node ids an indexed-strategy run returns do not depend on the
session state it starts from. -/
theorem opt_ids_indep (d : Drive) (fuel : Nat) (q r : String) (s₁ s₂ : Session) :
    ((optimizedRecursiveSearch d fuel q r s₁).1).map (fun it => it.id) =
    ((optimizedRecursiveSearch d fuel q r s₂).1).map (fun it => it.id) := by
  have hmap : ∀ (pc : List (String × String)) (l : List Item),
      ((l.map (fun it =>
        { it with path :=
            match it.parents.head? with
            | some p => (alookup pc p).getD "/"
            | none => "/" })).map (fun it => it.id)) = l.map (fun it => it.id) := by
    intro pc l
    rw [List.map_map]
    rfl
  have hkeys : (buildFolderStructureBulk d fuel r 6 s₁.pathCache).struct =
      (buildFolderStructureBulk d fuel r 6 s₂.pathCache).struct := by
    simp only [buildFolderStructureBulk]
    exact buildLoop_sim d 6 fuel _ ⟨[], s₁.pathCache, []⟩ ⟨[], s₂.pathCache, []⟩ rfl rfl
  simp only [optimizedRecursiveSearch]
  rw [hmap, hmap, hkeys]

/-- A successfully queried folder of the index contributes all its
matches to the final result, id, name and mime type intact. -/
theorem opt_mem_of_folder (d : Drive) (fuel : Nat) (q r : String) (s : Session)
    (g : String)
    (hg : g ∈ (buildFolderStructureBulk d fuel r 6 s.pathCache).struct.map
      (fun p => p.1))
    (hok : d.searchFails g = false) :
    ∀ n ∈ folderMatchList d q g,
      ∃ R ∈ (optimizedRecursiveSearch d fuel q r s).1,
        R.id = n.id ∧ R.name = n.name ∧ R.mimeType = n.mimeType := by
  intro n hn
  have hraw : shapeNode n "" ∈ searchBatched d q
      ((buildFolderStructureBulk d fuel r 6 s.pathCache).struct.map (fun p => p.1)) := by
    rw [searchBatched_eq]
    apply List.mem_flatMap.mpr
    refine ⟨g, hg, ?_⟩
    simp only [searchInSingleFolder, searchListing, hok, Bool.false_eq_true, if_false]
    exact List.mem_map_of_mem _ hn
  simp only [optimizedRecursiveSearch]
  exact ⟨_, List.mem_map_of_mem _ hraw, rfl, rfl, rfl⟩

/-- Every result of the naive strategy run at a reachable folder has one
of its parents reachable from `r` through successful child listings. -/
theorem naive_results_parent (d : Drive) (q r : String) :
    ∀ fuel (fid : String) (depth : Nat),
      (∃ k0, reachableFrom d k0 r fid = true) →
      ∀ it ∈ (searchFilesRecursive d q fuel fid depth).1,
        ∃ f, (∃ k, reachableFrom d k r f = true) ∧ it.parents.contains f = true := by
  intro fuel
  induction fuel with
  | zero =>
    intro fid depth _ it hit
    by_cases h : depth > 8 <;> simp [searchFilesRecursive, h] at hit
  | succ fuel ih =>
    intro fid depth hreach it hit
    by_cases h : depth > 8
    · simp [searchFilesRecursive, h] at hit
    · by_cases hf : (d.searchFails fid || d.listFoldersFails fid) = true
      · simp [searchFilesRecursive, h, hf] at hit
      · rw [Bool.not_eq_true] at hf
        simp only [searchFilesRecursive, if_neg h, hf, Bool.false_eq_true, if_false] at hit
        rcases List.mem_append.mp hit with h1 | h1
        · rcases List.mem_append.mp h1 with h2 | h2
          · rcases List.mem_map.mp h2 with ⟨n, hn, hsh⟩
            refine ⟨fid, hreach, ?_⟩
            have hpar : it.parents = n.parents := by rw [← hsh]; rfl
            rw [hpar]
            have h' := (List.mem_filter.mp hn).2
            rcases Bool.and_eq_true_iff.mp h' with ⟨h3, _⟩
            rcases Bool.and_eq_true_iff.mp h3 with ⟨h4, _⟩
            exact (Bool.and_eq_true_iff.mp h4).2
          · rcases List.mem_map.mp h2 with ⟨n, hn, hsh⟩
            refine ⟨fid, hreach, ?_⟩
            have hpar : it.parents = n.parents := by rw [← hsh]; rfl
            rw [hpar]
            have h' := (List.mem_filter.mp hn).2
            rcases Bool.and_eq_true_iff.mp h' with ⟨h3, _⟩
            rcases Bool.and_eq_true_iff.mp h3 with ⟨h4, _⟩
            exact (Bool.and_eq_true_iff.mp h4).2
        · rcases List.mem_flatten.mp h1 with ⟨l, hl, hitl⟩
          rcases List.mem_map.mp hl with ⟨rsub, hrsub, hleq⟩
          rcases List.mem_map.mp hrsub with ⟨fchild, hfchild, hreq⟩
          have hlist : d.listFoldersFails fid = false := by
            rcases Bool.or_eq_false_iff.mp hf with ⟨_, h5⟩
            exact h5
          have hok : folderChildrenList d fid = .ok (d.nodes.filter (fun n =>
              n.parents.contains fid && !n.trashed && n.mimeType == folderMime)) := by
            simp [folderChildrenList, hlist]
          obtain ⟨k0, hk0⟩ := hreach
          have hchildreach : ∃ k, reachableFrom d k r fchild.id = true :=
            ⟨k0 + 1, reach_child d k0 r fid _ fchild hk0 hok hfchild⟩
          apply ih fchild.id (depth + 1) hchildreach it
          rw [← hleq, ← hreq] at hitl
          exact hitl

/-- Appending the `.pdf` suffix indeed yields a name ending in `.pdf`
(JavaScript `endsWith` semantics). -/
theorem jsEndsWith_append (s : String) : jsEndsWith (s ++ ".pdf") ".pdf" = true := by
  simp only [jsEndsWith, String.data_append, List.isSuffixOf_iff_suffix]
  exact List.suffix_append _ _

/-! ### Idempotence of the coordinator -/

/-- Re-running the coordinator (at a fixed resolved root) immediately
after a first run, against the session the first run left behind,
returns the same node ids. -/
theorem searchFilesAt_ids_replay (d : Drive) (fuel : Nat) (q r : String)
    (s : Session) :
    ((searchFilesAt d fuel q r ((searchFilesAt d fuel q r s).2)).1).map (fun x => x.id) =
    ((searchFilesAt d fuel q r s).1).map (fun x => x.id) := by
  cases hg : globalListing d q with
  | error u =>
    have hgd : ∀ s' : Session, globalDriveSearch d fuel q r s' = (.error (), s') := by
      intro s'; simp [globalDriveSearch, hg]
    simp only [searchFilesAt, hgd]
    exact opt_ids_indep d fuel q r _ s
  | ok hits =>
    have hgd : ∀ s' : Session, globalDriveSearch d fuel q r s' =
        (.ok (globalFilterLoop d fuel r hits s').1,
          (globalFilterLoop d fuel r hits s').2) := by
      intro s'; simp [globalDriveSearch, hg]
    cases hout : (globalFilterLoop d fuel r hits s).1 with
    | nil =>
      have hrun1 : searchFilesAt d fuel q r s =
          optimizedRecursiveSearch d fuel q r (globalFilterLoop d fuel r hits s).2 := by
        simp [searchFilesAt, hgd, hout]
      have hfc : ∀ key v,
          alookup (globalFilterLoop d fuel r hits s).2.folderCache key = some v →
          alookup (optimizedRecursiveSearch d fuel q r
            (globalFilterLoop d fuel r hits s).2).2.folderCache key = some v := by
        intro key v hv
        simpa [optimizedRecursiveSearch] using hv
      have hrep := gfl_empty_stable d fuel fuel r hits s
        (optimizedRecursiveSearch d fuel q r (globalFilterLoop d fuel r hits s).2).2
        hout hfc
      have hrun2 : searchFilesAt d fuel q r ((searchFilesAt d fuel q r s).2) =
          optimizedRecursiveSearch d fuel q r
            (optimizedRecursiveSearch d fuel q r
              (globalFilterLoop d fuel r hits s).2).2 := by
        rw [hrun1]
        simp [searchFilesAt, hgd, hrep]
      rw [hrun2, hrun1]
      exact opt_ids_indep d fuel q r _ _
    | cons a out' =>
      have hrun1 : searchFilesAt d fuel q r s =
          (a :: out', (globalFilterLoop d fuel r hits s).2) := by
        simp [searchFilesAt, hgd, hout]
      have hrep := gfl_stable d fuel fuel r hits s (globalFilterLoop d fuel r hits s).2
        (fun _ _ h => h) (fun _ _ h => h)
      have hrun2 : searchFilesAt d fuel q r ((searchFilesAt d fuel q r s).2) =
          (a :: out', (globalFilterLoop d fuel r hits s).2) := by
        rw [hrun1]
        simp [searchFilesAt, hgd, hrep, hout]
      rw [hrun2, hrun1]

/-! ### Claim C1 -/

/-- C1 counterexample: on `driveA` the global strategy completes
successfully with an empty result set, yet `searchFiles` does not
return that empty result — it invokes the fallback strategy, which
finds the multi-parent leaf.  This refutes "an empty successful global
result is returned as the final result without invoking any fallback
strategy". -/
theorem claim_c1_counterexample :
    (globalDriveSearch driveA 10 "x" "r" ⟨[], []⟩).1 = .ok [] ∧
    (searchFiles driveA 10 "x" (some "r") ⟨[], []⟩).1 ≠ [] :=
  ⟨rfl, by decide⟩

/-- C1 (amended): `searchFiles` falls back from `globalDriveSearch` to
the indexed recursive strategy both when the global call raises an
error and when it completes successfully with an empty result; only a
successful non-empty global result is returned as final without
invoking the fallback. -/
theorem claim_c1_amended :
    (∀ (d : Drive) (fuel : Nat) (q r : String) (s s1 : Session), r ≠ "" →
      globalDriveSearch d fuel q r s = (.error (), s1) →
      searchFiles d fuel q (some r) s = optimizedRecursiveSearch d fuel q r s1) ∧
    (∀ (d : Drive) (fuel : Nat) (q r : String) (s : Session) res (s1 : Session),
      r ≠ "" →
      globalDriveSearch d fuel q r s = (.ok res, s1) → res ≠ [] →
      searchFiles d fuel q (some r) s = (res, s1)) ∧
    (∀ (d : Drive) (fuel : Nat) (q r : String) (s s1 : Session), r ≠ "" →
      globalDriveSearch d fuel q r s = (.ok [], s1) →
      searchFiles d fuel q (some r) s = optimizedRecursiveSearch d fuel q r s1) := by
  refine ⟨?_, ?_, ?_⟩
  · intro d fuel q r s s1 hr h
    simp [searchFiles, searchFilesAt, hr, h]
  · intro d fuel q r s res s1 hr h hne
    have hlen : res.length > 0 := List.length_pos.mpr hne
    simp [searchFiles, searchFilesAt, hr, h, hlen]
  · intro d fuel q r s s1 hr h
    simp [searchFiles, searchFilesAt, hr, h]

/-- C1 witness: the three fallback clauses at concrete stores — a
failing global query, a non-empty global success, and an empty global
success. -/
theorem claim_c1_amended_witness :
    searchFiles driveF 10 "x" (some "r") ⟨[], []⟩ =
      optimizedRecursiveSearch driveF 10 "x" "r" ⟨[], []⟩ ∧
    searchFiles driveE 10 "x" (some "r") ⟨[], []⟩ =
      ([⟨"y1", "x-one.pdf", "application/pdf", ["g1"], false, "/g1"⟩,
        ⟨"y2", "x-two.pdf", "application/pdf", ["g2"], false, "/g2"⟩],
        (globalDriveSearch driveE 10 "x" "r" ⟨[], []⟩).2) ∧
    searchFiles driveA 10 "x" (some "r") ⟨[], []⟩ =
      optimizedRecursiveSearch driveA 10 "x" "r"
        (globalDriveSearch driveA 10 "x" "r" ⟨[], []⟩).2 := by
  refine ⟨?_, ?_, ?_⟩
  · exact claim_c1_amended.1 driveF 10 "x" "r" ⟨[], []⟩ ⟨[], []⟩ (by decide) rfl
  · exact claim_c1_amended.2.1 driveE 10 "x" "r" ⟨[], []⟩ _ _ (by decide) rfl (by decide)
  · exact claim_c1_amended.2.2 driveA 10 "x" "r" ⟨[], []⟩ _ (by decide) rfl

/-! ### Claim C2 -/

/-- C2 counterexample: on `driveA` the indexed strategy returns the
leaf `x1` (found inside folder `F` of the root subtree), but
`isDescendantOf("x1", "r")` is `false` — the primary-parent chain goes
through the out-of-subtree parent `out`.  So not every strategy result
satisfies the ancestry predicate. -/
theorem claim_c2_counterexample :
    (((optimizedRecursiveSearch driveA 10 "x" "r" ⟨[], []⟩).1).map
      (fun it => it.id)).contains "x1" = true ∧
    (isDescendantOf driveA 10 "x1" "r" []).1 = false := by
  decide

/-- C2 (amended): every result of the global strategy satisfies the
ancestry predicate (its verdict is recorded `true` and re-querying
returns `true`); every result of the indexed and of the naive strategy
is found directly inside a folder reachable from the root through
successful child-folder listings — but, as the counterexample shows, a
multi-parent node among them need not satisfy the primary-parent
`isDescendantOf` check. -/
theorem claim_c2_amended :
    (∀ (d : Drive) (fuel : Nat) (q r : String) (s : Session) out (s' : Session),
      globalDriveSearch d fuel q r s = (.ok out, s') →
      ∀ it ∈ out, ∀ fuel' : Nat,
        (isDescendantOf d fuel' it.id r s'.folderCache).1 = true) ∧
    (∀ (d : Drive) (fuel : Nat) (q r : String) (s : Session),
      ∀ it ∈ (optimizedRecursiveSearch d fuel q r s).1,
        ∃ f, (∃ k, reachableFrom d k r f = true) ∧ it.parents.contains f = true) ∧
    (∀ (d : Drive) (q : String) (fuel depth : Nat) (r : String),
      ∀ it ∈ (searchFilesRecursive d q fuel r depth).1,
        ∃ f, (∃ k, reachableFrom d k r f = true) ∧ it.parents.contains f = true) := by
  refine ⟨?_, ?_, ?_⟩
  · intro d fuel q r s out s' h it hit fuel'
    cases hg : globalListing d q with
    | error u =>
      rw [show globalDriveSearch d fuel q r s = (.error (), s) by
        simp [globalDriveSearch, hg]] at h
      have hfst := congrArg Prod.fst h
      simp at hfst
    | ok hits =>
      have hval : globalDriveSearch d fuel q r s =
          (.ok (globalFilterLoop d fuel r hits s).1,
            (globalFilterLoop d fuel r hits s).2) := by
        simp [globalDriveSearch, hg]
      rw [hval] at h
      have hout : (globalFilterLoop d fuel r hits s).1 = out := by
        have := congrArg Prod.fst h
        simpa using this
      have hs' : (globalFilterLoop d fuel r hits s).2 = s' := congrArg Prod.snd h
      rw [← hout] at hit
      have := gfl_results_true d fuel r hits s it hit
      rw [hs'] at this
      rcases this with hrec | hid
      · by_cases hir : it.id = r
        · rw [hir, isDesc_self]
        · rw [isDesc_hit d fuel' it.id r true s'.folderCache hir hrec]
      · rw [hid, isDesc_self]
  · intro d fuel q r s it hit
    exact opt_results_reach d fuel q r s it hit
  · intro d q fuel depth r it hit
    exact naive_results_parent d q r fuel r depth ⟨0, reach_self d 0 r⟩ it hit

/-- C2 witness: a global-strategy result of `driveE` re-checks as a
descendant against the final session; the indexed result `x1` of
`driveA` and the naive result of `driveA` each lie in a reachable
folder. -/
theorem claim_c2_amended_witness :
    (isDescendantOf driveE 10 "y1" "r"
      ((globalDriveSearch driveE 10 "x" "r" ⟨[], []⟩).2).folderCache).1 = true ∧
    (∃ f, (∃ k, reachableFrom driveA k "r" f = true) ∧
      (⟨"x1", "x.pdf", "application/pdf", ["out", "F"], false, "/"⟩ : Item).parents.contains f = true) ∧
    (∃ f, (∃ k, reachableFrom driveA k "r" f = true) ∧
      (⟨"x1", "x.pdf", "application/pdf", ["out", "F"], false, "/F"⟩ : Item).parents.contains f = true) := by
  refine ⟨?_, ?_, ?_⟩
  · exact claim_c2_amended.1 driveE 10 "x" "r" ⟨[], []⟩ _ _ rfl
      ⟨"y1", "x-one.pdf", "application/pdf", ["g1"], false, "/g1"⟩ (by decide) 10
  · exact claim_c2_amended.2.1 driveA 10 "x" "r" ⟨[], []⟩
      ⟨"x1", "x.pdf", "application/pdf", ["out", "F"], false, "/"⟩ (by decide)
  · exact claim_c2_amended.2.2 driveA "x" 10 0 "r"
      ⟨"x1", "x.pdf", "application/pdf", ["out", "F"], false, "/F"⟩ (by decide)

/-! ### Claim C3 -/

/-- C3 counterexample: a folder's resolved path is not stable within a
session.  On the diamond store `driveB`, resolving `X` first walks the
primary-parent chain and yields `"/A/X"`, caching it; a later bulk
structure build in the same session (as any indexed-strategy search
performs) overwrites the cached entry while processing `X`'s second
discovery, and the next resolution returns `"/B/X"` — a different
string for the same folder, with no remote mutation in between. -/
theorem claim_c3_counterexample :
    (getOptimizedPath driveB 10 (some "X") []).1 = "/A/X" ∧
    (getOptimizedPath driveB 10 (some "X")
      (buildFolderStructureBulk driveB 10 "r" 6
        (getOptimizedPath driveB 10 (some "X") []).2).pathCache).1 = "/B/X" ∧
    ("/B/X" : String) ≠ "/A/X" :=
  ⟨rfl, rfl, by decide⟩

/-- C3 (amended): the path equations hold — the empty (falsy) id and
the configured root resolve to `"/"`; a non-root folder whose metadata
fetch succeeds resolves to its parent's resolution extended with
`"/" + name`, degenerating to `"/" + name` when the parent resolves to
`"/"`; and an indexed folder's recorded entry satisfies the same
recurrence against the frontier entry that discovered it (child path =
parent's discovery path extended with `"/" + name`, at depth one
below).  But the resolved path is stable only while no bulk structure
build intervenes: an immediately repeated `getOptimizedPath` returns
the same string and leaves the cache unchanged, whereas
`buildFolderStructureBulk` overwrites cached paths, so a multi-parent
folder can resolve to a different string later in the same session, as
the counterexample shows. -/
theorem claim_c3_amended :
    (∀ (d : Drive) (fuel : Nat),
      buildFilePath d fuel "" = "/" ∧ buildFilePath d fuel d.rootFolderId = "/") ∧
    (∀ (d : Drive) (fuel : Nat) (f : String) (node : Node),
      f ≠ "" → f ≠ d.rootFolderId → getNode d f = .ok node →
      buildFilePath d (fuel + 1) f =
        (if (match node.parents.head? with
             | some p => buildFilePath d fuel p
             | none => "/") = "/"
         then "/" ++ node.name
         else (match node.parents.head? with
               | some p => buildFilePath d fuel p
               | none => "/") ++ "/" ++ node.name)) ∧
    (∀ (d : Drive) (e c : QEntry), c ∈ childEntriesOf d e →
      ∃ (fs : List Node) (f : Node), folderChildrenList d e.id = .ok fs ∧ f ∈ fs ∧
        c.id = f.id ∧ c.depth = e.depth + 1 ∧
        c.path = (if e.path = "/" then "/" ++ f.name
                  else e.path ++ "/" ++ f.name)) ∧
    (∀ (d : Drive) (fuel fuel' : Nat) (fid : Option String)
      (pc : List (String × String)),
      getOptimizedPath d fuel' fid (getOptimizedPath d fuel fid pc).2 =
        ((getOptimizedPath d fuel fid pc).1, (getOptimizedPath d fuel fid pc).2)) := by
  refine ⟨?_, ?_, ?_, ?_⟩
  · intro d fuel
    constructor
    · cases fuel <;> simp [buildFilePath]
    · cases fuel <;> simp [buildFilePath]
  · intro d fuel f node hne hroot hok
    have hcond : ¬(f = "" ∨ f = d.rootFolderId) := by
      intro hc; rcases hc with hc | hc
      · exact hne hc
      · exact hroot hc
    simp only [buildFilePath, if_neg hcond, hok]
  · intro d e c hc
    cases h : folderChildrenList d e.id with
    | error u =>
      simp only [childEntriesOf, h] at hc
      exact absurd hc (List.not_mem_nil _)
    | ok fs =>
      simp only [childEntriesOf, h] at hc
      rcases List.mem_map.mp hc with ⟨f, hf, hceq⟩
      refine ⟨fs, f, rfl, hf, ?_, ?_, ?_⟩
      · rw [← hceq]
      · rw [← hceq]
      · rw [← hceq]
        show extendPath e.path f.name = _
        rw [extendPath]
  · intro d fuel fuel' fid pc
    exact gop_stable d fuel fuel' fid pc _ (fun _ _ h => h)

/-- C3 witness: the roots of `driveA` resolve to `"/"`; `driveD`'s node
`b` instantiates the resolver recurrence; the frontier entry that
`A`'s processing enqueues for `X` on `driveB` instantiates the indexed
discovery recurrence; and resolving the path of `F` twice in a row
yields the same string with an unchanged cache. -/
theorem claim_c3_amended_witness :
    (buildFilePath driveA 7 "" = "/" ∧ buildFilePath driveA 7 "r" = "/") ∧
    buildFilePath driveD 5 "b" =
      (if (match (["a"] : List String).head? with
           | some p => buildFilePath driveD 4 p
           | none => "/") = "/"
       then "/" ++ "B"
       else (match (["a"] : List String).head? with
             | some p => buildFilePath driveD 4 p
             | none => "/") ++ "/" ++ "B") ∧
    (∃ (fs : List Node) (f : Node), folderChildrenList driveB "A" = .ok fs ∧ f ∈ fs ∧
      ("X" : String) = f.id ∧ (2 : Nat) = 1 + 1 ∧
      ("/A/X" : String) = (if ("/A" : String) = "/" then "/" ++ f.name
                           else "/A" ++ "/" ++ f.name)) ∧
    getOptimizedPath driveA 9 (some "F") (getOptimizedPath driveA 8 (some "F") []).2 =
      ((getOptimizedPath driveA 8 (some "F") []).1,
        (getOptimizedPath driveA 8 (some "F") []).2) := by
  refine ⟨?_, ?_, ?_, ?_⟩
  · exact claim_c3_amended.1 driveA 7
  · exact claim_c3_amended.2.1 driveD 4 "b" ⟨"b", "B", "application/pdf", ["a"], false⟩
      (by decide) (by decide) rfl
  · exact claim_c3_amended.2.2.1 driveB ⟨"A", 1, "/A"⟩ ⟨"X", 2, "/A/X"⟩ (by decide)
  · exact claim_c3_amended.2.2.2 driveA 8 9 (some "F") []

/-! ### Claim C4 -/

/-- C4 counterexample: on `driveC` with `maxDepth = 1`, folder `a` is
discovered at exactly the boundary depth 1 but heads its own BFS batch,
so the loop breaks before processing it: it receives no structure-index
entry at all, refuting "a folder at the boundary depth is still
indexed". -/
theorem claim_c4_counterexample :
    (alookup (buildFolderStructureBulk driveC 10 "r" 1 []).struct "r").isSome = true ∧
    alookup (buildFolderStructureBulk driveC 10 "r" 1 []).struct "a" = none := by
  decide

/-- C4 (amended): the depth bounds all hold — no structure entry is
recorded beyond `maxDepth`, no folder with discovery depth beyond
`maxDepth` is queried for children, and the naive strategy queries no
folder deeper than its bound of 8 — but a folder at the boundary depth
is indexed only when its batch begins with a shallower folder; when it
heads its batch the traversal stops and it is left unindexed. -/
theorem claim_c4_amended :
    (∀ (d : Drive) (fuel : Nat) (r : String) (md : Nat)
      (pc : List (String × String)),
      ∀ p ∈ (buildFolderStructureBulk d fuel r md pc).struct, p.2.depth ≤ md) ∧
    (∀ (d : Drive) (fuel : Nat) (r : String) (md : Nat)
      (pc : List (String × String)),
      ∀ p ∈ (buildFolderStructureBulk d fuel r md pc).queried, p.2 ≤ md) ∧
    (∀ (d : Drive) (q : String) (fuel : Nat) (fid : String) (depth : Nat),
      ∀ p ∈ (searchFilesRecursive d q fuel fid depth).2, p.2 ≤ 8) := by
  have hmain : ∀ (d : Drive) (fuel : Nat) (r : String) (md : Nat)
      (pc : List (String × String)),
      (∀ p ∈ (buildFolderStructureBulk d fuel r md pc).struct, p.2.depth ≤ md) ∧
      (∀ p ∈ (buildFolderStructureBulk d fuel r md pc).queried, p.2 ≤ md) := by
    intro d fuel r md pc
    apply buildLoop_le d md fuel [⟨r, 0, "/"⟩] ⟨[], pc, []⟩
    · exact List.pairwise_singleton _ _
    · intro p hp; exact absurd hp (List.not_mem_nil _)
    · intro p hp; exact absurd hp (List.not_mem_nil _)
  exact ⟨fun d fuel r md pc => (hmain d fuel r md pc).1,
    fun d fuel r md pc => (hmain d fuel r md pc).2,
    fun d q fuel fid depth => naive_queried_le d q fuel fid depth⟩

/-- C4 witness: on `driveC` with `maxDepth = 1` the recorded root entry
respects the depth bound, and a query-log pair of the naive strategy on
`driveA` respects the bound of 8. -/
theorem claim_c4_amended_witness :
    (("r", (⟨["a"], "/", 0⟩ : SEntry)) ∈
        (buildFolderStructureBulk driveC 10 "r" 1 []).struct ∧
      ((⟨["a"], "/", 0⟩ : SEntry)).depth ≤ 1) ∧
    (("F", 1) ∈ (searchFilesRecursive driveA "x" 10 "r" 0).2 ∧ 1 ≤ 8) :=
  ⟨⟨by decide,
    claim_c4_amended.1 driveC 10 "r" 1 [] ("r", ⟨["a"], "/", 0⟩) (by decide)⟩,
   ⟨by decide,
    claim_c4_amended.2.2 driveA "x" 10 "r" 0 ("F", 1) (by decide)⟩⟩

/-! ### Claim C5 -/

/-- C5: the ancestry resolver behaves as claimed — reflexive pairs are
`true` without caching or fetching; cache hits return the memo with no
fetch; a failed metadata fetch or an empty parent list yields `false`,
cached, and a later call on the pair returns `false` with zero fetches;
and on a miss with a parent present the result is the recursion on the
primary parent, memoised for the pair before returning, at the cost of
one additional fetch. -/
theorem claim_c5 :
    (∀ (d : Drive) (fuel : Nat) (r : String)
      (c : List ((String × String) × Bool)),
      isDescendantOf d fuel r r c = (true, c, 0)) ∧
    (∀ (d : Drive) (fuel : Nat) (n r : String) (b : Bool)
      (c : List ((String × String) × Bool)),
      n ≠ r → alookup c (n, r) = some b →
      isDescendantOf d fuel n r c = (b, c, 0)) ∧
    (∀ (d : Drive) (fuel : Nat) (n r : String)
      (c : List ((String × String) × Bool)),
      n ≠ r → alookup c (n, r) = none → getNode d n = .error () →
      isDescendantOf d (fuel + 1) n r c = (false, mset c (n, r) false, 1) ∧
      ∀ fuel' : Nat, isDescendantOf d fuel' n r (mset c (n, r) false) =
        (false, mset c (n, r) false, 0)) ∧
    (∀ (d : Drive) (fuel : Nat) (n r : String)
      (c : List ((String × String) × Bool)) (node : Node),
      n ≠ r → alookup c (n, r) = none → getNode d n = .ok node →
      node.parents = [] →
      isDescendantOf d (fuel + 1) n r c = (false, mset c (n, r) false, 1) ∧
      ∀ fuel' : Nat, isDescendantOf d fuel' n r (mset c (n, r) false) =
        (false, mset c (n, r) false, 0)) ∧
    (∀ (d : Drive) (fuel : Nat) (n r : String)
      (c : List ((String × String) × Bool)) (node : Node) (p : String)
      (ps : List String),
      n ≠ r → alookup c (n, r) = none → getNode d n = .ok node →
      node.parents = p :: ps →
      isDescendantOf d (fuel + 1) n r c =
        ((isDescendantOf d fuel p r c).1,
          mset (isDescendantOf d fuel p r c).2.1 (n, r)
            (isDescendantOf d fuel p r c).1,
          (isDescendantOf d fuel p r c).2.2 + 1)) := by
  refine ⟨?_, ?_, ?_, ?_, ?_⟩
  · intro d fuel r c
    exact isDesc_self d fuel r c
  · intro d fuel n r b c hne hc
    exact isDesc_hit d fuel n r b c hne hc
  · intro d fuel n r c hne hc hget
    refine ⟨by simp [isDescendantOf, hne, hc, hget], ?_⟩
    intro fuel'
    exact isDesc_hit d fuel' n r false _ hne (alookup_mset_self _ _ _)
  · intro d fuel n r c node hne hc hget hp
    refine ⟨by simp [isDescendantOf, hne, hc, hget, hp], ?_⟩
    intro fuel'
    exact isDesc_hit d fuel' n r false _ hne (alookup_mset_self _ _ _)
  · intro d fuel n r c node p ps hne hc hget hp
    by_cases hpr : p = r
    · subst hpr
      simp [isDescendantOf, hne, hc, hget, hp, isDesc_self]
    · simp [isDescendantOf, hne, hc, hget, hp, hpr]

/-- C5 witness: the reflexive, cache-hit, fetch-failure, and
recursive-parent clauses at concrete inputs of `driveA`. -/
theorem claim_c5_witness :
    isDescendantOf driveA 6 "r" "r" [] = (true, [], 0) ∧
    isDescendantOf driveA 6 "x1" "r" [(("x1", "r"), false)] =
      (false, [(("x1", "r"), false)], 0) ∧
    (isDescendantOf driveA 6 "out" "r" [] =
      (false, mset [] ("out", "r") false, 1) ∧
     isDescendantOf driveA 3 "out" "r" (mset [] ("out", "r") false) =
      (false, mset [] ("out", "r") false, 0)) ∧
    isDescendantOf driveA 6 "x1" "r" [] =
      ((isDescendantOf driveA 5 "out" "r" []).1,
        mset (isDescendantOf driveA 5 "out" "r" []).2.1 ("x1", "r")
          (isDescendantOf driveA 5 "out" "r" []).1,
        (isDescendantOf driveA 5 "out" "r" []).2.2 + 1) := by
  refine ⟨?_, ?_, ?_, ?_⟩
  · exact claim_c5.1 driveA 6 "r" []
  · exact claim_c5.2.1 driveA 6 "x1" "r" false _ (by decide) rfl
  · exact ⟨(claim_c5.2.2.1 driveA 5 "out" "r" [] (by decide) rfl rfl).1,
      (claim_c5.2.2.1 driveA 5 "out" "r" [] (by decide) rfl rfl).2 3⟩
  · exact claim_c5.2.2.2.2 driveA 5 "x1" "r" []
      ⟨"x1", "x.pdf", "application/pdf", ["out", "F"], false⟩ "out" ["F"]
      (by decide) rfl rfl rfl

/-! ### Claim C6 -/

/-- C6 counterexample: on the diamond store `driveB` the folder `X` is
first discovered (and written) through `A` with path `/A/X`, then
rediscovered through `B`; the second writer overwrites the entry, so
the session path cache ends at `/B/X` — the first writer did not
win. -/
theorem claim_c6_counterexample :
    alookup (buildFolderStructureBulk driveB 10 "r" 3 []).pathCache "X" =
      some "/B/X" ∧
    alookup (buildFolderStructureBulk driveB 10 "r" 3 []).pathCache "X" ≠
      some "/A/X" := by
  decide

/-- C6 (amended): path-cache entries written through `getOptimizedPath`
are first-writer-wins — once a binding exists, a later call returns it
unchanged, and a recomputation leaves cache and value intact — but
`buildFolderStructureBulk` writes its structure and path-cache entries
unconditionally on every processing of a folder, so a rediscovered
folder's entries are overwritten: there, the last writer wins. -/
theorem claim_c6_amended :
    (∀ (d : Drive) (fuel : Nat) (f p : String) (pc : List (String × String)),
      f ≠ "" → f ≠ d.rootFolderId → alookup pc f = some p →
      getOptimizedPath d fuel (some f) pc = (p, pc)) ∧
    (∀ (d : Drive) (fuel fuel' : Nat) (fid : Option String)
      (pc : List (String × String)),
      getOptimizedPath d fuel' fid (getOptimizedPath d fuel fid pc).2 =
        ((getOptimizedPath d fuel fid pc).1, (getOptimizedPath d fuel fid pc).2)) ∧
    (∀ (d : Drive) (e : QEntry) (st : BuildState) (fs : List Node),
      folderChildrenList d e.id = .ok fs →
      alookup (processOne d e st).pathCache e.id = some e.path ∧
      alookup (processOne d e st).struct e.id =
        some ⟨fs.map (fun f => f.id), e.path, e.depth⟩) := by
  refine ⟨?_, ?_, ?_⟩
  · intro d fuel f p pc hne hroot hc
    have hcond : ¬(f = "" ∨ f = d.rootFolderId) := by
      intro hcc; rcases hcc with hcc | hcc
      · exact hne hcc
      · exact hroot hcc
    simp [getOptimizedPath, hcond, hc]
  · intro d fuel fuel' fid pc
    exact gop_stable d fuel fuel' fid pc _ (fun _ _ h => h)
  · intro d e st fs hok
    simp [processOne, hok, alookup_mset_self]

/-- C6 witness: a cached path for `F` is returned unchanged, a repeated
resolution is stable, and a processed build entry's writes land. -/
theorem claim_c6_amended_witness :
    getOptimizedPath driveA 6 (some "F") [("F", "/F")] = ("/F", [("F", "/F")]) ∧
    getOptimizedPath driveA 9 (some "F") (getOptimizedPath driveA 8 (some "F") []).2 =
      ((getOptimizedPath driveA 8 (some "F") []).1,
        (getOptimizedPath driveA 8 (some "F") []).2) ∧
    (alookup (processOne driveB ⟨"A", 1, "/A"⟩ ⟨[], [], []⟩).pathCache "A" =
      some "/A" ∧
     alookup (processOne driveB ⟨"A", 1, "/A"⟩ ⟨[], [], []⟩).struct "A" =
      some ⟨["X"], "/A", 1⟩) := by
  refine ⟨?_, ?_, ?_⟩
  · exact claim_c6_amended.1 driveA 6 "F" "/F" [("F", "/F")] (by decide) (by decide) rfl
  · exact claim_c6_amended.2.1 driveA 8 9 (some "F") []
  · exact claim_c6_amended.2.2 driveB ⟨"A", 1, "/A"⟩ ⟨[], [], []⟩
      [⟨"X", "X", folderMime, ["A", "B"], false⟩] rfl

/-! ### Claim C7 -/

/-- C7: when exactly one folder's per-folder query fails, every match of
every other indexed folder still appears in the final result of the
indexed strategy (id, name and mime type intact) — a single folder's
failure removes only that folder's contribution, and the search total
function never aborts. -/
theorem claim_c7 :
    ∀ (d : Drive) (fuel : Nat) (q r : String) (s : Session) (f : String),
      d.searchFails f = true →
      (∀ g, g ≠ f → d.searchFails g = false) →
      ∀ g ∈ (buildFolderStructureBulk d fuel r 6 s.pathCache).struct.map
        (fun p => p.1), g ≠ f →
        ∀ n ∈ folderMatchList d q g,
          ∃ R ∈ (optimizedRecursiveSearch d fuel q r s).1,
            R.id = n.id ∧ R.name = n.name ∧ R.mimeType = n.mimeType := by
  intro d fuel q r s f hf hothers g hg hgf n hn
  exact opt_mem_of_folder d fuel q r s g hg (hothers g hgf) n hn

/-- C7 witness: on `driveE` the query of `g2` fails and only `g2`'s
query fails; the match of the sibling folder `g1` still appears in the
indexed strategy's final result. -/
theorem claim_c7_witness :
    ∃ R ∈ (optimizedRecursiveSearch driveE 10 "x" "r" ⟨[], []⟩).1,
      R.id = "y1" ∧ R.name = "x-one.pdf" ∧ R.mimeType = "application/pdf" := by
  have hothers : ∀ g, g ≠ "g2" → driveE.searchFails g = false := by
    intro g hg
    simpa [driveE] using hg
  exact claim_c7 driveE 10 "x" "r" ⟨[], []⟩ "g2" (by decide) hothers "g1"
    (by decide) (by decide)
    ⟨"y1", "x-one.pdf", "application/pdf", ["g1"], false⟩ (by decide)

/-! ### Claim C8 -/

/-- C8 counterexample: on `driveD` the fetch of the ancestor `a` fails
while `b`'s own fetch succeeds; `buildFilePath("b")` returns
`"/unknown/B"`, not the bare sentinel `"/unknown"` the claim
prescribes for a failure anywhere in the chain. -/
theorem claim_c8_counterexample :
    buildFilePath driveD 5 "b" = "/unknown/B" ∧
    ("/unknown/B" : String) ≠ "/unknown" :=
  ⟨rfl, by decide⟩

/-- C8 (amended): `buildFilePath` never propagates an error (it is a
total function into strings); a failure fetching the folder's own
metadata yields exactly the sentinel `"/unknown"`, while a failure at a
strict ancestor yields the ancestor's sentinel as a path prefix —
`"/unknown/" ++ name` — rather than the bare sentinel. -/
theorem claim_c8_amended :
    (∀ (d : Drive) (fuel : Nat) (f : String),
      f ≠ "" → f ≠ d.rootFolderId → getNode d f = .error () →
      buildFilePath d (fuel + 1) f = "/unknown") ∧
    (∀ (d : Drive) (fuel : Nat) (f : String) (node : Node) (p : String),
      f ≠ "" → f ≠ d.rootFolderId → getNode d f = .ok node →
      node.parents.head? = some p → buildFilePath d fuel p = "/unknown" →
      buildFilePath d (fuel + 1) f = "/unknown/" ++ node.name) := by
  constructor
  · intro d fuel f hne hroot hget
    have hcond : ¬(f = "" ∨ f = d.rootFolderId) := by
      intro hcc; rcases hcc with hcc | hcc
      · exact hne hcc
      · exact hroot hcc
    simp [buildFilePath, hcond, hget]
  · intro d fuel f node p hne hroot hget hhead hpp
    have hcond : ¬(f = "" ∨ f = d.rootFolderId) := by
      intro hcc; rcases hcc with hcc | hcc
      · exact hne hcc
      · exact hroot hcc
    simp only [buildFilePath, if_neg hcond, hget, hhead, hpp]
    rw [if_neg (by decide)]
    rfl

/-- C8 witness: on `driveD`, the folder `a` itself fails to fetch and
resolves to the sentinel, and its child `b` resolves to the
sentinel-prefixed `"/unknown/" ++ "B"`. -/
theorem claim_c8_amended_witness :
    buildFilePath driveD 4 "a" = "/unknown" ∧
    buildFilePath driveD 5 "b" = "/unknown/" ++ "B" :=
  ⟨claim_c8_amended.1 driveD 3 "a" (by decide) (by decide) rfl,
   claim_c8_amended.2 driveD 4 "b" ⟨"b", "B", "application/pdf", ["a"], false⟩
     "a" (by decide) (by decide) rfl rfl rfl⟩

/-! ### Claim C9 -/

/-- C9: running `searchFiles` twice in one session over an unchanged,
deterministic remote store yields the same set of result node ids on
both runs — the second run replays the memoised ancestry verdicts, so
the global filter keeps the same hits, and the indexed fallback's id
set is independent of the session caches. -/
theorem claim_c9 :
    ∀ (d : Drive) (fuel : Nat) (q : String) (folderId : Option String)
      (s : Session) (i : String),
      (i ∈ ((searchFiles d fuel q folderId
        ((searchFiles d fuel q folderId s).2)).1).map (fun x => x.id)) ↔
      (i ∈ ((searchFiles d fuel q folderId s).1).map (fun x => x.id)) := by
  intro d fuel q folderId s i
  simp only [searchFiles]
  rw [searchFilesAt_ids_replay]

/-! ### Claim C10 -/

/-- C10: `getFileContent` maps every Google-Docs file (mime type
starting with `application/vnd.google-apps`) to a PDF export record —
mime type exactly `application/pdf` and name the original suffixed with
`.pdf` unless it already ends in `.pdf`, hence always ending in
`.pdf` — and every other file to a raw download record carrying the
file's own mime type (defaulting to `application/octet-stream` when
the metadata has none) and its name unchanged. -/
theorem claim_c10 :
    (∀ (d : Drive) (fileId : String) (file : Node),
      getNode d fileId = .ok file →
      jsStartsWith file.mimeType gAppsPref = true →
      getFileContent d fileId =
        .ok ⟨.exportPdf fileId "application/pdf", "application/pdf",
          if jsEndsWith file.name ".pdf" then file.name
          else file.name ++ ".pdf"⟩ ∧
      ∃ res, getFileContent d fileId = .ok res ∧
        res.mimeType = "application/pdf" ∧ jsEndsWith res.name ".pdf" = true) ∧
    (∀ (d : Drive) (fileId : String) (file : Node),
      getNode d fileId = .ok file →
      jsStartsWith file.mimeType gAppsPref = false →
      getFileContent d fileId =
        .ok ⟨.download fileId,
          if file.mimeType = "" then "application/octet-stream"
          else file.mimeType, file.name⟩) := by
  constructor
  · intro d fileId file hok hstart
    constructor
    · simp [getFileContent, hok, hstart]
    · refine ⟨⟨.exportPdf fileId "application/pdf", "application/pdf",
        if jsEndsWith file.name ".pdf" then file.name
        else file.name ++ ".pdf"⟩, by simp [getFileContent, hok, hstart], rfl, ?_⟩
      by_cases hend : jsEndsWith file.name ".pdf" = true
      · simp [hend]
      · rw [Bool.not_eq_true] at hend
        simp only [hend, Bool.false_eq_true, if_false]
        exact jsEndsWith_append file.name
  · intro d fileId file hok hstart
    simp [getFileContent, hok, hstart]

/-- C10 witness: the Google-Docs leaf `doc1` of `driveE` exports as a
PDF named `notes.pdf`, and the binary leaf `y1` downloads with its own
mime type and name. -/
theorem claim_c10_witness :
    (getFileContent driveE "doc1" =
        .ok ⟨.exportPdf "doc1" "application/pdf", "application/pdf",
          if jsEndsWith "notes" ".pdf" then "notes" else "notes" ++ ".pdf"⟩ ∧
      ∃ res, getFileContent driveE "doc1" = .ok res ∧
        res.mimeType = "application/pdf" ∧ jsEndsWith res.name ".pdf" = true) ∧
    getFileContent driveE "y1" =
      .ok ⟨.download "y1",
        if ("application/pdf" : String) = "" then "application/octet-stream"
        else "application/pdf", "x-one.pdf"⟩ :=
  ⟨claim_c10.1 driveE "doc1"
      ⟨"doc1", "notes", "application/vnd.google-apps.document", ["r"], false⟩
      rfl (by decide),
   claim_c10.2 driveE "y1"
      ⟨"y1", "x-one.pdf", "application/pdf", ["g1"], false⟩ rfl (by decide)⟩

end DriveSearch
